import Mathlib

set_option maxHeartbeats 1000000

/-!
Verification development for the appointment-booking service.

Part 1 embeds the inbound-message coordinator of
`src/telegram/services/message_queue.py` as pure functions over an explicit
queue state.  The database table `message_queue` is a list of rows in
insertion order (a SQL query without ORDER BY is read back in insertion
order); `datetime.utcnow()` is a logical clock `now` that advances at every
committed write, so `created_at` stamps are strictly increasing.  String ids
(uuid4) become consecutive naturals drawn from `next_id`.
-/

/-- Statuses of a queued message.  Modelled from the spec: the enum
`MessageStatus` lives in `src/telegram/models.py`, which is not part of the
sources; its five members are exactly the ones used by
`src/telegram/services/message_queue.py` and listed in the spec. -/
inductive MessageStatus where
  | pending
  | processing
  | completed
  | cancelled
  | superseded
  deriving DecidableEq, Repr

/-- Inbound event.  Modelled from the spec: the pydantic model
`SendPulseMessage` lives in `src/telegram/models.py`, which is not part of
the sources; the fields are the ones read by `message_queue.py`
(`tg_id`, `project_id`, `response`, `retry`, `count`). -/
structure SendPulseMessage where
  project_id : String
  tg_id : String
  response : String
  retry : Bool
  count : Nat
  deriving DecidableEq, Repr

/-- One row of the `message_queue` table (`MessageQueue` ORM model). -/
structure QRow where
  id : Nat
  project_id : String
  client_id : String
  original_message : String
  aggregated_message : String
  status : MessageStatus
  created_at : Nat
  updated_at : Nat
  deriving DecidableEq, Repr

/-- One row of the `client_last_activity` table (`ClientLastActivity`). -/
structure ActivityRow where
  project_id : String
  client_id : String
  last_message_at : Nat
  deriving DecidableEq, Repr

/-- Persistent state seen by `MessageQueueService`: the two tables plus the
id supply and the clock. -/
structure QState where
  rows : List QRow
  activities : List ActivityRow
  next_id : Nat
  now : Nat
  deriving DecidableEq, Repr

/-- Row filter `project_id == p and client_id == c` used by every
per-client query in `message_queue.py`. -/
def matches_client (p c : String) (r : QRow) : Bool :=
  r.project_id == p && r.client_id == c

/-- Status filter `status.in_([PENDING, PROCESSING])` used by
`_coordinate_client_messages` and `clear_client_queue`. -/
def is_pending_or_processing (s : MessageStatus) : Bool :=
  s == MessageStatus.pending || s == MessageStatus.processing

/-- Embeds `MessageQueueService._should_process_message`
(`src/telegram/services/message_queue.py` lines 78-95). -/
def should_process_message (m : SendPulseMessage) : Bool :=
  if !m.retry then true
  else if m.retry && m.count != 0 then true
  else false

/-- Value returned by `_coordinate_client_messages` (the dictionary with
keys `queue_item`, `queue_item_id`, `should_return_false`). -/
structure CoordinationResult where
  queue_item_id : Nat
  aggregated : String
  should_return_false : Bool
  deriving DecidableEq, Repr

/-- Row update applied by `_coordinate_client_messages` to the locked
PENDING/PROCESSING rows of the client (lines 213-218). -/
def supersede_mark (st : QState) (p c : String) (r : QRow) : QRow :=
  if matches_client p c r && is_pending_or_processing r.status then
    { r with status := MessageStatus.superseded, updated_at := st.now }
  else r

/-- Embeds `MessageQueueService._coordinate_client_messages`
(`src/telegram/services/message_queue.py` lines 180-258): lock the client
rows in status PENDING/PROCESSING, mark them SUPERSEDED, join their
`aggregated_message` texts (query order, i.e. insertion order) with the new
text, and insert one new PENDING row. -/
def coordinate_client_messages (st : QState) (m : SendPulseMessage) :
    QState × CoordinationResult :=
  let p := m.project_id
  let c := m.tg_id
  let existing := st.rows.filter
    (fun r => matches_client p c r && is_pending_or_processing r.status)
  let aggregated_text :=
    if existing.isEmpty then m.response
    else String.intercalate " "
      (existing.map (fun r => r.aggregated_message) ++ [m.response])
  let rows1 := st.rows.map (supersede_mark st p c)
  let new_row : QRow :=
    { id := st.next_id, project_id := p, client_id := c,
      original_message := m.response, aggregated_message := aggregated_text,
      status := MessageStatus.pending, created_at := st.now,
      updated_at := st.now }
  ({ st with rows := rows1 ++ [new_row],
             next_id := st.next_id + 1,
             now := st.now + 1 },
   { queue_item_id := st.next_id,
     aggregated := aggregated_text,
     should_return_false := false })

/-- Embeds `MessageQueueService._update_client_activity`
(`src/telegram/services/message_queue.py` lines 373-395). -/
def update_client_activity (st : QState) (p c : String) : QState :=
  if st.activities.any (fun a => a.project_id == p && a.client_id == c) then
    { st with activities := st.activities.map (fun a =>
        if a.project_id == p && a.client_id == c then
          { a with last_message_at := st.now }
        else a) }
  else
    { st with activities :=
        st.activities ++ [{ project_id := p, client_id := c,
                            last_message_at := st.now }] }

/-- Outcome of `process_incoming_message`: the error dictionary, the
retry-skip dictionary (`send_status: FALSE`, no `queue_item_id`), the dead
`should_return_false` branch, or the queued dictionary. -/
inductive SubmitResult where
  | error_no_client
  | skipped
  | superseded_early (queue_item_id : Nat)
  | queued (queue_item_id : Nat) (aggregated : String)
  deriving DecidableEq, Repr

/-- Embeds `MessageQueueService.process_incoming_message`
(`src/telegram/services/message_queue.py` lines 27-76). -/
def process_incoming_message (st : QState) (m : SendPulseMessage) :
    QState × SubmitResult :=
  if m.tg_id == "" then (st, SubmitResult.error_no_client)
  else if !should_process_message m then (st, SubmitResult.skipped)
  else
    let res := coordinate_client_messages st m
    if res.2.should_return_false then
      (res.1, SubmitResult.superseded_early res.2.queue_item_id)
    else
      (update_client_activity res.1 m.project_id m.tg_id,
       SubmitResult.queued res.2.queue_item_id res.2.aggregated)

/-- Body of the latest-message scan loop of `try_claim_as_winner`
(`src/telegram/services/message_queue.py` lines 507-514), with the running
candidate as accumulator: first row wins ties, a strictly larger
`created_at` replaces the candidate. -/
def find_latest_from (acc : Option QRow) : List QRow → Option QRow
  | [] => acc
  | msg :: rest =>
    find_latest_from
      (match acc with
       | none => some msg
       | some cur =>
         if msg.created_at > cur.created_at then some msg else acc)
      rest

/-- Embeds the latest-message scan loop of `try_claim_as_winner`, started
with `latest_message = None`. -/
def find_latest (l : List QRow) : Option QRow :=
  find_latest_from none l

/-- Status filter of the `SELECT ... FOR UPDATE` in `try_claim_as_winner`
(lines 494-505): every status except CANCELLED. -/
def in_winner_scan (p c : String) (r : QRow) : Bool :=
  matches_client p c r &&
    (r.status == MessageStatus.pending ||
     r.status == MessageStatus.processing ||
     r.status == MessageStatus.completed ||
     r.status == MessageStatus.superseded)

/-- Row update applied by the winning branch of `try_claim_as_winner`
(lines 524-537): the claimed row becomes COMPLETED, every other scanned row
still in PENDING/PROCESSING/COMPLETED becomes SUPERSEDED. -/
def win_mark (st : QState) (p c : String) (queue_item_id : Nat) (r : QRow) :
    QRow :=
  if r.id == queue_item_id then
    (if r.status != MessageStatus.completed then
      { r with status := MessageStatus.completed, updated_at := st.now }
    else r)
  else if in_winner_scan p c r &&
      (r.status == MessageStatus.pending ||
       r.status == MessageStatus.processing ||
       r.status == MessageStatus.completed) then
    { r with status := MessageStatus.superseded, updated_at := st.now }
  else r

/-- Row update applied by the losing branch of `try_claim_as_winner`
(lines 541-554): the claimed row becomes SUPERSEDED unless it already is. -/
def lose_mark (st : QState) (queue_item_id : Nat) (r : QRow) : QRow :=
  if r.id == queue_item_id && r.status != MessageStatus.superseded then
    { r with status := MessageStatus.superseded, updated_at := st.now }
  else r

/-- Embeds `MessageQueueService.try_claim_as_winner`
(`src/telegram/services/message_queue.py` lines 464-563). -/
def try_claim_as_winner (st : QState) (p c : String) (queue_item_id : Nat) :
    QState × Bool :=
  match st.rows.find? (fun r => r.id == queue_item_id) with
  | none => (st, false)
  | some _current =>
    let all_client_messages := st.rows.filter (in_winner_scan p c)
    match find_latest all_client_messages with
    | some latest =>
      if latest.id == queue_item_id then
        ({ st with rows := st.rows.map (win_mark st p c queue_item_id),
                   now := st.now + 1 }, true)
      else
        ({ st with rows := st.rows.map (lose_mark st queue_item_id),
                   now := st.now + 1 }, false)
    | none =>
      ({ st with rows := st.rows.map (lose_mark st queue_item_id),
                 now := st.now + 1 }, false)

/-- Embeds `MessageQueueService.update_message_status`
(`src/telegram/services/message_queue.py` lines 298-321): the requested
status is written unconditionally when the row exists. -/
def update_message_status (st : QState) (queue_item_id : Nat)
    (status : MessageStatus) : QState × Bool :=
  if st.rows.any (fun r => r.id == queue_item_id) then
    ({ st with rows := st.rows.map (fun r =>
                 if r.id == queue_item_id then
                   { r with status := status, updated_at := st.now }
                 else r),
               now := st.now + 1 }, true)
  else (st, false)

/-- Embeds `MessageQueueService.clear_client_queue`
(`src/telegram/services/message_queue.py` lines 344-371): every client row
in PENDING/PROCESSING is marked COMPLETED. -/
def clear_client_queue (st : QState) (p c : String) : QState :=
  { st with rows := st.rows.map (fun r =>
              if matches_client p c r && is_pending_or_processing r.status
              then { r with status := MessageStatus.completed,
                            updated_at := st.now }
              else r),
            now := st.now + 1 }

/-- Well-formedness maintained by the service: ids are below the id supply,
`created_at` stamps are below the clock, and rows are listed in creation
order with distinct ids and distinct (strictly increasing) stamps. -/
def WF (st : QState) : Prop :=
  (∀ r ∈ st.rows, r.id < st.next_id ∧ r.created_at < st.now) ∧
  st.rows.Pairwise (fun a b => a.id ≠ b.id ∧ a.created_at < b.created_at)

instance (st : QState) : Decidable (WF st) := by
  unfold WF; infer_instance

/-! Helper lemmas about the embedded operations. -/

theorem update_client_activity_rows (st : QState) (p c : String) :
    (update_client_activity st p c).rows = st.rows := by
  unfold update_client_activity
  split <;> rfl

theorem update_client_activity_next_id (st : QState) (p c : String) :
    (update_client_activity st p c).next_id = st.next_id := by
  unfold update_client_activity
  split <;> rfl

theorem update_client_activity_now (st : QState) (p c : String) :
    (update_client_activity st p c).now = st.now := by
  unfold update_client_activity
  split <;> rfl

theorem should_process_message_false_iff (m : SendPulseMessage) :
    should_process_message m = false ↔ (m.retry = true ∧ m.count = 0) := by
  unfold should_process_message
  cases hr : m.retry <;> cases hc : m.count <;> simp [hr, hc]

theorem process_incoming_message_queued (st : QState) (m : SendPulseMessage)
    (hc : m.tg_id ≠ "") (hp : should_process_message m = true) :
    process_incoming_message st m =
      (update_client_activity (coordinate_client_messages st m).1
         m.project_id m.tg_id,
       SubmitResult.queued (coordinate_client_messages st m).2.queue_item_id
         (coordinate_client_messages st m).2.aggregated) := by
  have hb : (m.tg_id == "") = false := beq_eq_false_iff_ne.mpr hc
  have hfalse : (coordinate_client_messages st m).2.should_return_false =
      false := rfl
  unfold process_incoming_message
  rw [hb, hp]
  simp [hfalse]

/-- Relation between two members of a pairwise-related list. -/
theorem mem_rel_of_pairwise {α : Type} {R : α → α → Prop} :
    ∀ {l : List α}, l.Pairwise R → ∀ {a b : α}, a ∈ l → b ∈ l →
      a = b ∨ R a b ∨ R b a := by
  intro l hl
  induction hl with
  | nil => intro a b ha _; cases ha
  | cons hx _hrest ih =>
    intro a b ha hb
    rcases List.mem_cons.mp ha with rfl | ha2
    · rcases List.mem_cons.mp hb with rfl | hb2
      · exact Or.inl rfl
      · exact Or.inr (Or.inl (hx _ hb2))
    · rcases List.mem_cons.mp hb with rfl | hb2
      · exact Or.inr (Or.inr (hx _ ha2))
      · exact ih ha2 hb2

/-- Under well-formedness, rows are determined by their id. -/
theorem wf_id_inj {st : QState} (hWF : WF st) {a b : QRow}
    (ha : a ∈ st.rows) (hb : b ∈ st.rows) (hid : a.id = b.id) : a = b := by
  rcases mem_rel_of_pairwise hWF.2 ha hb with h | h | h
  · exact h
  · exact absurd hid h.1
  · exact absurd hid.symm h.1

/-- Under well-formedness, distinct rows carry distinct stamps, in list
order. -/
theorem wf_created_lt {st : QState} (hWF : WF st) {a b : QRow}
    (ha : a ∈ st.rows) (hb : b ∈ st.rows) (hid : a.id ≠ b.id) :
    a.created_at < b.created_at ∨ b.created_at < a.created_at := by
  rcases mem_rel_of_pairwise hWF.2 ha hb with h | h | h
  · exact absurd (congrArg QRow.id h) hid
  · exact Or.inl h.2
  · exact Or.inr h.2

/-- C5 (retry skip), theorem. For every event with a client id, submission
is skipped (send_status FALSE with no queue item) iff the event has
`retry = true` and `count = 0`; a skipped event leaves the queue state
untouched, every other event inserts exactly one new queue row. -/
theorem retry_skip (st : QState) (m : SendPulseMessage) (hc : m.tg_id ≠ "") :
    ((process_incoming_message st m).2 = SubmitResult.skipped ↔
      (m.retry = true ∧ m.count = 0)) ∧
    (m.retry = true ∧ m.count = 0 → (process_incoming_message st m).1 = st) ∧
    (¬(m.retry = true ∧ m.count = 0) →
      ∃ a, (process_incoming_message st m).2 =
          SubmitResult.queued st.next_id a ∧
        (process_incoming_message st m).1.rows.length =
          st.rows.length + 1) := by
  have hb : (m.tg_id == "") = false := beq_eq_false_iff_ne.mpr hc
  by_cases hskip : m.retry = true ∧ m.count = 0
  · have hp : should_process_message m = false :=
      (should_process_message_false_iff m).mpr hskip
    refine ⟨?_, fun _ => ?_, fun hcon => absurd hskip hcon⟩ <;>
      · unfold process_incoming_message
        rw [hb, hp]
        simp [hskip]
  · have hp : should_process_message m = true := by
      rcases Bool.eq_false_or_eq_true (should_process_message m) with h | h
      · exact h
      · exact absurd ((should_process_message_false_iff m).mp h) hskip
    have hq := process_incoming_message_queued st m hc hp
    refine ⟨?_, fun h => absurd h hskip, fun _ => ?_⟩
    · rw [hq]
      simp
      intro h h2
      exact hskip ⟨h, h2⟩
    · refine ⟨(coordinate_client_messages st m).2.aggregated, ?_, ?_⟩
      · rw [hq]
        rfl
      · rw [hq]
        simp only [update_client_activity_rows]
        show ((st.rows.map _) ++ [_]).length = st.rows.length + 1
        simp

/-- Shape of the coordination step when the client has PENDING/PROCESSING
rows: existing client rows are superseded in place and the aggregated new
row is appended. -/
theorem coordinate_client_messages_eq (st : QState) (m : SendPulseMessage)
    (hempty : (st.rows.filter (fun r =>
      matches_client m.project_id m.tg_id r &&
      is_pending_or_processing r.status)).isEmpty = false) :
    coordinate_client_messages st m =
      ({ rows := st.rows.map (supersede_mark st m.project_id m.tg_id) ++
          [{ id := st.next_id, project_id := m.project_id,
             client_id := m.tg_id, original_message := m.response,
             aggregated_message := String.intercalate " "
               ((st.rows.filter (fun r =>
                   matches_client m.project_id m.tg_id r &&
                   is_pending_or_processing r.status)).map
                 (fun r => r.aggregated_message) ++ [m.response]),
             status := MessageStatus.pending, created_at := st.now,
             updated_at := st.now }],
         activities := st.activities,
         next_id := st.next_id + 1,
         now := st.now + 1 },
       { queue_item_id := st.next_id,
         aggregated := String.intercalate " "
           ((st.rows.filter (fun r =>
               matches_client m.project_id m.tg_id r &&
               is_pending_or_processing r.status)).map
             (fun r => r.aggregated_message) ++ [m.response]),
         should_return_false := false }) := by
  simp only [coordinate_client_messages, hempty, Bool.false_eq_true,
    if_false]

/-- C4 (submit aggregation), theorem. When a message is queued for a
client that already has PENDING/PROCESSING rows, every such row is marked
SUPERSEDED, exactly one new PENDING row is appended, and its aggregated
text is the space-joined concatenation of the existing rows' aggregated
texts in creation order (oldest first) followed by the new text. -/
theorem submit_aggregation (st : QState) (m : SendPulseMessage)
    (hWF : WF st) (hc : m.tg_id ≠ "") (hp : should_process_message m = true)
    (hex : st.rows.filter (fun r => matches_client m.project_id m.tg_id r &&
      is_pending_or_processing r.status) ≠ []) :
    (process_incoming_message st m).1.rows.length = st.rows.length + 1 ∧
    (∀ (j : Nat) (r0 : QRow), st.rows[j]? = some r0 →
      ∃ r1 : QRow, (process_incoming_message st m).1.rows[j]? = some r1 ∧
        r1.id = r0.id ∧ r1.created_at = r0.created_at ∧
        r1.status =
          (if matches_client m.project_id m.tg_id r0 &&
              is_pending_or_processing r0.status
           then MessageStatus.superseded
           else r0.status)) ∧
    (∃ nr, (process_incoming_message st m).1.rows.getLast? = some nr ∧
      nr.status = MessageStatus.pending ∧
      nr.project_id = m.project_id ∧ nr.client_id = m.tg_id ∧
      nr.aggregated_message = String.intercalate " "
        ((st.rows.filter (fun r => matches_client m.project_id m.tg_id r &&
            is_pending_or_processing r.status)).map
          (fun r => r.aggregated_message) ++ [m.response]) ∧
      (process_incoming_message st m).2 =
        SubmitResult.queued nr.id nr.aggregated_message) ∧
    (st.rows.filter (fun r => matches_client m.project_id m.tg_id r &&
      is_pending_or_processing r.status)).Pairwise
        (fun a b => a.created_at < b.created_at) := by
  have hempty : (st.rows.filter (fun r =>
      matches_client m.project_id m.tg_id r &&
      is_pending_or_processing r.status)).isEmpty = false := by
    rcases hfe : st.rows.filter (fun r =>
        matches_client m.project_id m.tg_id r &&
        is_pending_or_processing r.status) with _ | ⟨a, t⟩
    · exact absurd hfe hex
    · rfl
  have hq := process_incoming_message_queued st m hc hp
  rw [coordinate_client_messages_eq st m hempty] at hq
  have hrows : (process_incoming_message st m).1.rows =
      st.rows.map (supersede_mark st m.project_id m.tg_id) ++
      [{ id := st.next_id, project_id := m.project_id,
         client_id := m.tg_id, original_message := m.response,
         aggregated_message := String.intercalate " "
           ((st.rows.filter (fun r =>
               matches_client m.project_id m.tg_id r &&
               is_pending_or_processing r.status)).map
             (fun r => r.aggregated_message) ++ [m.response]),
         status := MessageStatus.pending, created_at := st.now,
         updated_at := st.now }] := by
    rw [hq]
    exact update_client_activity_rows _ _ _
  refine ⟨?_, ?_, ?_, ?_⟩
  · rw [hrows]
    simp
  · intro j r0 hr0
    have hjlen : j < st.rows.length := by
      by_contra hge
      rw [List.getElem?_eq_none (Nat.le_of_not_lt hge)] at hr0
      cases hr0
    rw [hrows, List.getElem?_append_left (by simpa using hjlen),
      List.getElem?_map, hr0]
    refine ⟨_, rfl, ?_, ?_, ?_⟩ <;>
      · unfold supersede_mark
        split <;> rfl
  · have hlast : (process_incoming_message st m).1.rows.getLast? =
        some { id := st.next_id, project_id := m.project_id,
               client_id := m.tg_id, original_message := m.response,
               aggregated_message := String.intercalate " "
                 ((st.rows.filter (fun r =>
                     matches_client m.project_id m.tg_id r &&
                     is_pending_or_processing r.status)).map
                   (fun r => r.aggregated_message) ++ [m.response]),
               status := MessageStatus.pending, created_at := st.now,
               updated_at := st.now } := by
      rw [hrows]
      exact List.getLast?_concat _
    refine ⟨_, hlast, rfl, rfl, rfl, rfl, ?_⟩
    rw [hq]
  · exact (hWF.2.filter _).imp (fun h => h.2)

/-! Analysis of the winner-claim scan. -/

theorem find_latest_from_mem :
    ∀ (l : List QRow) (acc : Option QRow) (x : QRow),
      find_latest_from acc l = some x → acc = some x ∨ x ∈ l := by
  intro l
  induction l with
  | nil => intro acc x h; exact Or.inl h
  | cons msg rest ih =>
    intro acc x h
    rcases ih _ x h with h2 | h2
    · rcases acc with _ | cur
      · cases h2
        exact Or.inr (List.mem_cons_self _ _)
      · simp only at h2
        split at h2
        · cases h2
          exact Or.inr (List.mem_cons_self _ _)
        · exact Or.inl h2
    · exact Or.inr (List.mem_cons_of_mem _ h2)
theorem find_latest_from_max :
    ∀ (l : List QRow) (acc : Option QRow) (x : QRow),
      find_latest_from acc l = some x →
      (∀ y ∈ l, y.created_at ≤ x.created_at) ∧
      (∀ a, acc = some a → a.created_at ≤ x.created_at) := by
  intro l
  induction l with
  | nil =>
    intro acc x h
    have hax : acc = some x := h
    refine ⟨fun y hy => absurd hy (List.not_mem_nil y), fun a ha => ?_⟩
    rw [hax] at ha
    cases ha
    exact Nat.le_refl _
  | cons msg rest ih =>
    intro acc x h
    rcases acc with _ | cur
    · have h2 : find_latest_from (some msg) rest = some x := h
      have ihx := ih _ x h2
      refine ⟨?_, fun a ha => by cases ha⟩
      intro y hy
      rcases List.mem_cons.mp hy with rfl | hy2
      · exact ihx.2 _ rfl
      · exact ihx.1 y hy2
    · have h2 : find_latest_from
          (if msg.created_at > cur.created_at then some msg else some cur)
          rest = some x := h
      by_cases hgt : msg.created_at > cur.created_at
      · rw [if_pos hgt] at h2
        have ihx := ih _ x h2
        refine ⟨?_, fun a ha => ?_⟩
        · intro y hy
          rcases List.mem_cons.mp hy with rfl | hy2
          · exact ihx.2 _ rfl
          · exact ihx.1 y hy2
        · cases ha
          exact Nat.le_trans (Nat.le_of_lt hgt) (ihx.2 _ rfl)
      · rw [if_neg hgt] at h2
        have ihx := ih _ x h2
        refine ⟨?_, fun a ha => ?_⟩
        · intro y hy
          rcases List.mem_cons.mp hy with rfl | hy2
          · exact Nat.le_trans (Nat.le_of_not_lt hgt) (ihx.2 _ rfl)
          · exact ihx.1 y hy2
        · cases ha
          exact ihx.2 _ rfl

theorem find_latest_from_isSome :
    ∀ (l : List QRow) (acc : Option QRow), acc.isSome →
      (find_latest_from acc l).isSome := by
  intro l
  induction l with
  | nil => intro acc h; exact h
  | cons msg rest ih =>
    intro acc h
    show (find_latest_from _ rest).isSome
    apply ih
    rcases acc with _ | cur
    · rfl
    · simp only
      split <;> rfl

theorem find_latest_isSome_of_mem {l : List QRow} {w : QRow} (hw : w ∈ l) :
    (find_latest l).isSome := by
  rcases l with _ | ⟨a, t⟩
  · cases hw
  · exact find_latest_from_isSome t (some a) rfl

theorem find_latest_mem {l : List QRow} {x : QRow}
    (h : find_latest l = some x) : x ∈ l := by
  rcases find_latest_from_mem l none x h with h2 | h2
  · cases h2
  · exact h2

theorem find_latest_max {l : List QRow} {x : QRow}
    (h : find_latest l = some x) :
    ∀ y ∈ l, y.created_at ≤ x.created_at :=
  (find_latest_from_max l none x h).1

theorem scan_status_iff (s : MessageStatus) :
    (s == MessageStatus.pending || s == MessageStatus.processing ||
     s == MessageStatus.completed || s == MessageStatus.superseded) = true ↔
    s ≠ MessageStatus.cancelled := by
  cases s <;> simp

theorem mem_scan_iff (p c : String) (r : QRow) :
    in_winner_scan p c r = true ↔
      (matches_client p c r = true ∧ r.status ≠ MessageStatus.cancelled) := by
  unfold in_winner_scan
  rw [Bool.and_eq_true]
  rw [scan_status_iff]

/-- Branch equation: unknown queue item id. -/
theorem try_claim_eq_notfound (st : QState) (p c : String) (i : Nat)
    (h : st.rows.find? (fun r => r.id == i) = none) :
    try_claim_as_winner st p c i = (st, false) := by
  unfold try_claim_as_winner
  rw [h]

/-- Branch equation: the claimed item is the latest scanned row (WIN). -/
theorem try_claim_eq_win (st : QState) (p c : String) (i : Nat)
    (cur latest : QRow)
    (h1 : st.rows.find? (fun r => r.id == i) = some cur)
    (h2 : find_latest (st.rows.filter (in_winner_scan p c)) = some latest)
    (h3 : latest.id = i) :
    try_claim_as_winner st p c i =
      ({ st with rows := st.rows.map (win_mark st p c i),
                 now := st.now + 1 }, true) := by
  unfold try_claim_as_winner
  rw [h1]
  simp only [h2]
  rw [if_pos (by simp [h3])]

/-- Branch equation: the scan found no row at all (LOSE). -/
theorem try_claim_eq_emptyscan (st : QState) (p c : String) (i : Nat)
    (cur : QRow)
    (h1 : st.rows.find? (fun r => r.id == i) = some cur)
    (h2 : find_latest (st.rows.filter (in_winner_scan p c)) = none) :
    try_claim_as_winner st p c i =
      ({ st with rows := st.rows.map (lose_mark st i),
                 now := st.now + 1 }, false) := by
  unfold try_claim_as_winner
  rw [h1]
  simp only [h2]

/-- Branch equation: a different row is the latest scanned row (LOSE). -/
theorem try_claim_eq_lose (st : QState) (p c : String) (i : Nat)
    (cur latest : QRow)
    (h1 : st.rows.find? (fun r => r.id == i) = some cur)
    (h2 : find_latest (st.rows.filter (in_winner_scan p c)) = some latest)
    (h3 : latest.id ≠ i) :
    try_claim_as_winner st p c i =
      ({ st with rows := st.rows.map (lose_mark st i),
                 now := st.now + 1 }, false) := by
  unfold try_claim_as_winner
  rw [h1]
  simp only [h2]
  rw [if_neg (by simp [h3])]

/-- Latest-non-CANCELLED characterization used by the winner claim: item
`i` is a row of the client and every other non-CANCELLED row of the client
is strictly older. -/
def is_latest_non_cancelled (st : QState) (p c : String) (i : Nat) : Prop :=
  ∃ r ∈ st.rows, r.id = i ∧ matches_client p c r = true ∧
    r.status ≠ MessageStatus.cancelled ∧
    ∀ q ∈ st.rows, matches_client p c q = true →
      q.status ≠ MessageStatus.cancelled → q.id ≠ i →
      q.created_at < r.created_at

theorem try_claim_wins_iff (st : QState) (p c : String) (i : Nat)
    (hWF : WF st) :
    (try_claim_as_winner st p c i).2 = true ↔
      is_latest_non_cancelled st p c i := by
  constructor
  · intro htrue
    rcases hfind : st.rows.find? (fun q => q.id == i) with _ | cur
    · rw [try_claim_eq_notfound st p c i hfind] at htrue
      cases htrue
    · rcases hlat : find_latest (st.rows.filter (in_winner_scan p c))
        with _ | latest
      · rw [try_claim_eq_emptyscan st p c i cur hfind hlat] at htrue
        cases htrue
      · by_cases h3 : latest.id = i
        · have hmem := find_latest_mem hlat
          have hmax := find_latest_max hlat
          have hmem2 := List.mem_filter.mp hmem
          have hscan := (mem_scan_iff p c latest).mp hmem2.2
          refine ⟨latest, hmem2.1, h3, hscan.1, hscan.2, ?_⟩
          intro q hq hqc hqnc hqid
          have hqs : q ∈ st.rows.filter (in_winner_scan p c) :=
            List.mem_filter.mpr ⟨hq, (mem_scan_iff p c q).mpr ⟨hqc, hqnc⟩⟩
          have hle := hmax q hqs
          have hne : q.id ≠ latest.id := by rw [h3]; exact hqid
          rcases wf_created_lt hWF hq hmem2.1 hne with hlt | hlt
          · exact hlt
          · omega
        · rw [try_claim_eq_lose st p c i cur latest hfind hlat h3] at htrue
          cases htrue
  · rintro ⟨w, hw, hwid, hwc, hwnc, hmax⟩
    rcases hfind : st.rows.find? (fun q => q.id == i) with _ | cur
    · have := List.find?_eq_none.mp hfind w hw
      simp [hwid] at this
    · have hwscan : w ∈ st.rows.filter (in_winner_scan p c) :=
        List.mem_filter.mpr ⟨hw, (mem_scan_iff p c w).mpr ⟨hwc, hwnc⟩⟩
      have hsome := find_latest_isSome_of_mem hwscan
      rcases hlat : find_latest (st.rows.filter (in_winner_scan p c))
        with _ | latest
      · rw [hlat] at hsome
        cases hsome
      · have hlmem := List.mem_filter.mp (find_latest_mem hlat)
        have hlscan := (mem_scan_iff p c latest).mp hlmem.2
        have h3 : latest.id = i := by
          by_contra h3
          have hlt := hmax latest hlmem.1 hlscan.1 hlscan.2 h3
          have hle := find_latest_max hlat w hwscan
          omega
        rw [try_claim_eq_win st p c i cur latest hfind hlat h3]

/-- Per-row status outcome of a winner claim, as a function of whether the
claim won. -/
def winner_new_status (won : Bool) (p c : String) (i : Nat) (r : QRow) :
    MessageStatus :=
  if won then
    if r.id == i then MessageStatus.completed
    else if in_winner_scan p c r &&
        (r.status == MessageStatus.pending ||
         r.status == MessageStatus.processing ||
         r.status == MessageStatus.completed) then
      MessageStatus.superseded
    else r.status
  else
    if r.id == i && r.status != MessageStatus.superseded then
      MessageStatus.superseded
    else r.status

theorem win_mark_key (st : QState) (p c : String) (i : Nat) (r : QRow) :
    (win_mark st p c i r).id = r.id ∧
    (win_mark st p c i r).created_at = r.created_at ∧
    (win_mark st p c i r).project_id = r.project_id ∧
    (win_mark st p c i r).client_id = r.client_id := by
  refine ⟨?_, ?_, ?_, ?_⟩ <;>
    · unfold win_mark
      split <;> (try split) <;> rfl

theorem lose_mark_key (st : QState) (i : Nat) (r : QRow) :
    (lose_mark st i r).id = r.id ∧
    (lose_mark st i r).created_at = r.created_at ∧
    (lose_mark st i r).project_id = r.project_id ∧
    (lose_mark st i r).client_id = r.client_id := by
  refine ⟨?_, ?_, ?_, ?_⟩ <;>
    · unfold lose_mark
      split <;> rfl

theorem win_mark_status (st : QState) (p c : String) (i : Nat) (r : QRow) :
    (win_mark st p c i r).status = winner_new_status true p c i r := by
  unfold win_mark winner_new_status
  rw [if_pos rfl]
  by_cases hb1 : (r.id == i) = true
  · simp only [hb1, if_true]
    by_cases hb2 : (r.status != MessageStatus.completed) = true
    · simp [hb2]
    · have hc : r.status = MessageStatus.completed := by simpa using hb2
      simp [hb2, hc]
  · have hb1f : (r.id == i) = false := by simpa using hb1
    simp only [hb1f, Bool.false_eq_true, if_false]
    split <;> rfl

theorem lose_mark_status (st : QState) (p c : String) (i : Nat) (r : QRow) :
    (lose_mark st i r).status = winner_new_status false p c i r := by
  unfold lose_mark winner_new_status
  rw [if_neg (show ¬(false = true) by simp)]
  split <;> rfl

theorem try_claim_row_effects (st : QState) (p c : String) (i : Nat) :
    ∀ (j : Nat) (q0 : QRow), st.rows[j]? = some q0 →
      ∃ q1 : QRow, (try_claim_as_winner st p c i).1.rows[j]? = some q1 ∧
        q1.id = q0.id ∧ q1.created_at = q0.created_at ∧
        q1.project_id = q0.project_id ∧ q1.client_id = q0.client_id ∧
        q1.status = winner_new_status (try_claim_as_winner st p c i).2
          p c i q0 := by
  intro j q0 hq0
  rcases hfind : st.rows.find? (fun q => q.id == i) with _ | cur
  · rw [try_claim_eq_notfound st p c i hfind]
    have hmem : q0 ∈ st.rows := List.getElem?_mem hq0
    have hid : (q0.id == i) = false := by
      have h2 := List.find?_eq_none.mp hfind q0 hmem
      simpa using h2
    refine ⟨q0, hq0, rfl, rfl, rfl, rfl, ?_⟩
    simp [winner_new_status, hid]
  · rcases hlat : find_latest (st.rows.filter (in_winner_scan p c))
      with _ | latest
    · rw [try_claim_eq_emptyscan st p c i cur hfind hlat]
      simp only [List.getElem?_map, hq0, Option.map_some']
      exact ⟨_, rfl, (lose_mark_key st i q0).1, (lose_mark_key st i q0).2.1,
        (lose_mark_key st i q0).2.2.1, (lose_mark_key st i q0).2.2.2,
        lose_mark_status st p c i q0⟩
    · by_cases h3 : latest.id = i
      · rw [try_claim_eq_win st p c i cur latest hfind hlat h3]
        simp only [List.getElem?_map, hq0, Option.map_some']
        exact ⟨_, rfl, (win_mark_key st p c i q0).1,
          (win_mark_key st p c i q0).2.1, (win_mark_key st p c i q0).2.2.1,
          (win_mark_key st p c i q0).2.2.2, win_mark_status st p c i q0⟩
      · rw [try_claim_eq_lose st p c i cur latest hfind hlat h3]
        simp only [List.getElem?_map, hq0, Option.map_some']
        exact ⟨_, rfl, (lose_mark_key st i q0).1, (lose_mark_key st i q0).2.1,
          (lose_mark_key st i q0).2.2.1, (lose_mark_key st i q0).2.2.2,
          lose_mark_status st p c i q0⟩

theorem winner_new_status_cases (won : Bool) (p c : String) (i : Nat)
    (r : QRow) :
    winner_new_status won p c i r = r.status ∨
    winner_new_status won p c i r = MessageStatus.superseded ∨
    winner_new_status won p c i r = MessageStatus.completed := by
  unfold winner_new_status
  cases won
  · rw [if_neg (by simp)]
    split
    · exact Or.inr (Or.inl rfl)
    · exact Or.inl rfl
  · rw [if_pos rfl]
    split
    · exact Or.inr (Or.inr rfl)
    · split
      · exact Or.inr (Or.inl rfl)
      · exact Or.inl rfl

/-- A row transformation that keeps id, stamp and client key. -/
def row_map_ok (f : QRow → QRow) : Prop :=
  ∀ r, (f r).id = r.id ∧ (f r).created_at = r.created_at ∧
    (f r).project_id = r.project_id ∧ (f r).client_id = r.client_id

theorem WF_of_map {st st2 : QState} (hWF : WF st) (f : QRow → QRow)
    (hrows : st2.rows = st.rows.map f) (hf : row_map_ok f)
    (hnid : st.next_id ≤ st2.next_id) (hnow : st.now ≤ st2.now) :
    WF st2 := by
  constructor
  · intro r hr
    rw [hrows] at hr
    rcases List.mem_map.mp hr with ⟨r0, hr0, rfl⟩
    have h0 := hWF.1 r0 hr0
    have hfr := hf r0
    rw [hfr.1, hfr.2.1]
    omega
  · rw [hrows]
    rw [List.pairwise_map]
    refine hWF.2.imp_of_mem ?_
    intro a b _ _ hab
    have hfa := hf a
    have hfb := hf b
    rw [hfa.1, hfa.2.1, hfb.1, hfb.2.1]
    exact hab

theorem try_claim_rows_cases (st : QState) (p c : String) (i : Nat) :
    ((try_claim_as_winner st p c i).1.rows = st.rows ∧
     (try_claim_as_winner st p c i).1.next_id = st.next_id ∧
     (try_claim_as_winner st p c i).1.now = st.now) ∨
    ∃ f : QRow → QRow,
      (try_claim_as_winner st p c i).1.rows = st.rows.map f ∧
      row_map_ok f ∧
      (∀ r, (f r).status = r.status ∨
        (f r).status = MessageStatus.superseded ∨
        (f r).status = MessageStatus.completed) ∧
      (try_claim_as_winner st p c i).1.next_id = st.next_id ∧
      (try_claim_as_winner st p c i).1.now = st.now + 1 := by
  rcases hfind : st.rows.find? (fun q => q.id == i) with _ | cur
  · rw [try_claim_eq_notfound st p c i hfind]
    exact Or.inl ⟨rfl, rfl, rfl⟩
  · rcases hlat : find_latest (st.rows.filter (in_winner_scan p c))
      with _ | latest
    · rw [try_claim_eq_emptyscan st p c i cur hfind hlat]
      refine Or.inr ⟨lose_mark st i, rfl, fun r => lose_mark_key st i r,
        fun r => ?_, rfl, rfl⟩
      rw [lose_mark_status st p c i r]
      rcases winner_new_status_cases false p c i r with h | h | h <;>
        rw [h] <;> simp
    · by_cases h3 : latest.id = i
      · rw [try_claim_eq_win st p c i cur latest hfind hlat h3]
        refine Or.inr ⟨win_mark st p c i, rfl,
          fun r => win_mark_key st p c i r, fun r => ?_, rfl, rfl⟩
        rw [win_mark_status st p c i r]
        rcases winner_new_status_cases true p c i r with h | h | h <;>
          rw [h] <;> simp
      · rw [try_claim_eq_lose st p c i cur latest hfind hlat h3]
        refine Or.inr ⟨lose_mark st i, rfl, fun r => lose_mark_key st i r,
          fun r => ?_, rfl, rfl⟩
        rw [lose_mark_status st p c i r]
        rcases winner_new_status_cases false p c i r with h | h | h <;>
          rw [h] <;> simp

theorem try_claim_WF (st : QState) (p c : String) (i : Nat) (hWF : WF st) :
    WF (try_claim_as_winner st p c i).1 := by
  rcases try_claim_rows_cases st p c i with ⟨h1, h2, h3⟩ |
    ⟨f, h1, h2, _, h4, h5⟩
  · constructor
    · intro r hr
      rw [h1] at hr
      exact hWF.1 r hr |>.imp (fun h => by omega) (fun h => by omega)
    · rw [h1]
      exact hWF.2
  · exact WF_of_map hWF f h1 h2 (by omega) (by omega)

theorem is_pending_or_processing_iff (s : MessageStatus) :
    is_pending_or_processing s = true ↔
      s = MessageStatus.pending ∨ s = MessageStatus.processing := by
  cases s <;> simp [is_pending_or_processing]

/-- Per-index shape of the coordination step on pre-existing rows. -/
theorem coordinate_rows_left (st : QState) (m : SendPulseMessage)
    (j : Nat) (r0 : QRow) (h : st.rows[j]? = some r0) :
    (coordinate_client_messages st m).1.rows[j]? =
      some (supersede_mark st m.project_id m.tg_id r0) := by
  have hlen : j < st.rows.length := by
    rcases List.getElem?_eq_some.mp h with ⟨h2, _⟩
    exact h2
  show ((st.rows.map _) ++ [_])[j]? = _
  rw [List.getElem?_append_left (by simpa using hlen), List.getElem?_map, h]
  rfl

/-- C3 (ClaimWinner semantics), amended theorem. For an existing item of
the client: the claim WINs iff the item is the row with the latest
`created_at` among the client's rows whose status is not CANCELLED (the
scan excludes CANCELLED rows); on WIN the claimed row is marked COMPLETED
and every other scanned client row still in PENDING/PROCESSING/COMPLETED
is marked SUPERSEDED; on LOSE the claimed row is marked SUPERSEDED unless
it is already SUPERSEDED (even if it is COMPLETED or CANCELLED).  The
per-row outcome is `winner_new_status`. -/
theorem claim_winner_semantics (st : QState) (p c : String) (i : Nat)
    (hWF : WF st) (r : QRow) (hr : r ∈ st.rows) (hid : r.id = i)
    (hpc : matches_client p c r = true) :
    ((try_claim_as_winner st p c i).2 = true ↔
      is_latest_non_cancelled st p c i) ∧
    (∀ (j : Nat) (q0 : QRow), st.rows[j]? = some q0 →
      ∃ q1 : QRow, (try_claim_as_winner st p c i).1.rows[j]? = some q1 ∧
        q1.id = q0.id ∧ q1.created_at = q0.created_at ∧
        q1.status = winner_new_status (try_claim_as_winner st p c i).2
          p c i q0) := by
  refine ⟨try_claim_wins_iff st p c i hWF, ?_⟩
  intro j q0 h
  rcases try_claim_row_effects st p c i j q0 h with
    ⟨q1, e, h1, h2, _, _, h6⟩
  exact ⟨q1, e, h1, h2, h6⟩

def c3x_state : QState :=
  { rows := [
      { id := 0, project_id := "p", client_id := "c",
        original_message := "a", aggregated_message := "a",
        status := MessageStatus.pending, created_at := 3, updated_at := 3 },
      { id := 1, project_id := "p", client_id := "c",
        original_message := "b", aggregated_message := "b",
        status := MessageStatus.cancelled, created_at := 5,
        updated_at := 5 }],
    activities := [], next_id := 2, now := 6 }

/-- C3, counterexample to the claim as stated: claiming item 0 returns WIN
although row 1 of the same client has the strictly greatest `created_at`
of all rows (the scan ignores row 1 because it is CANCELLED), so WIN is
not equivalent to having the maximum `created_at` regardless of status. -/
theorem claim_winner_semantics_counterexample :
    (try_claim_as_winner c3x_state "p" "c" 0).2 = true ∧
    (∃ q ∈ c3x_state.rows, q.id ≠ 0 ∧
      ∀ q0 ∈ c3x_state.rows, q0.id = 0 → q0.created_at < q.created_at) := by
  constructor
  · decide
  · decide

def c3w_state : QState :=
  { rows := [
      { id := 0, project_id := "p", client_id := "c",
        original_message := "a", aggregated_message := "a",
        status := MessageStatus.superseded, created_at := 3,
        updated_at := 3 },
      { id := 1, project_id := "p", client_id := "c",
        original_message := "b", aggregated_message := "a b",
        status := MessageStatus.processing, created_at := 5,
        updated_at := 5 }],
    activities := [], next_id := 2, now := 6 }

/-- C3, witness: the amended theorem applied at a concrete state. -/
theorem claim_winner_semantics_witness :
    (try_claim_as_winner c3w_state "p" "c" 1).2 = true ↔
      is_latest_non_cancelled c3w_state "p" "c" 1 :=
  (claim_winner_semantics c3w_state "p" "c" 1 (by decide)
    { id := 1, project_id := "p", client_id := "c",
      original_message := "b", aggregated_message := "a b",
      status := MessageStatus.processing, created_at := 5, updated_at := 5 }
    (by decide) (by decide) (by decide)).1

/-- The coordinator operations that change row statuses: Submit
(`process_incoming_message`), ClaimWinner (`try_claim_as_winner`),
`update_message_status` (this includes MarkFailed, which is
`update_message_status(..., CANCELLED)` in `src/main.py`), and
`clear_client_queue`. -/
inductive CoordinatorOp where
  | submit (m : SendPulseMessage)
  | claim_winner (p c : String) (queue_item_id : Nat)
  | update_status (queue_item_id : Nat) (status : MessageStatus)
  | clear_queue (p c : String)

/-- State reached by one coordinator operation. -/
def apply_op (st : QState) : CoordinatorOp → QState
  | CoordinatorOp.submit m => (process_incoming_message st m).1
  | CoordinatorOp.claim_winner p c i => (try_claim_as_winner st p c i).1
  | CoordinatorOp.update_status i s => (update_message_status st i s).1
  | CoordinatorOp.clear_queue p c => clear_client_queue st p c

/-- The status transitions the code actually performs on an existing row.
`update_message_status` writes the requested status unconditionally; the
other operations keep a status or move along
PENDING/PROCESSING to SUPERSEDED or COMPLETED, COMPLETED to SUPERSEDED,
SUPERSEDED to COMPLETED, or CANCELLED to SUPERSEDED. -/
def allowed_change : CoordinatorOp → MessageStatus → MessageStatus → Prop
  | CoordinatorOp.update_status _ s, a, b => b = a ∨ b = s
  | _, a, b => b = a ∨
      (a = MessageStatus.pending ∧
        (b = MessageStatus.superseded ∨ b = MessageStatus.completed)) ∨
      (a = MessageStatus.processing ∧
        (b = MessageStatus.superseded ∨ b = MessageStatus.completed)) ∨
      (a = MessageStatus.completed ∧ b = MessageStatus.superseded) ∨
      (a = MessageStatus.superseded ∧ b = MessageStatus.completed) ∨
      (a = MessageStatus.cancelled ∧ b = MessageStatus.superseded)

/-- C7 (status transition table), amended theorem. Every coordinator
operation transforms each existing row's status inside `allowed_change`:
the spec's table extended by PENDING/PROCESSING to COMPLETED
(`clear_client_queue`), COMPLETED to SUPERSEDED and CANCELLED to
SUPERSEDED (losing or superseded-by-winner claims), SUPERSEDED to
COMPLETED (a superseded row that is still the newest non-CANCELLED row
wins), and arbitrary rewrites by `update_message_status`; the terminal
statuses are not absorbing. -/
theorem status_transitions (st : QState) (op : CoordinatorOp)
    (hWF : WF st) :
    ∀ (j : Nat) (r0 : QRow), st.rows[j]? = some r0 →
      ∃ r1 : QRow, (apply_op st op).rows[j]? = some r1 ∧ r1.id = r0.id ∧
        allowed_change op r0.status r1.status := by
  intro j r0 h
  cases op with
  | submit m =>
    show ∃ r1, ((process_incoming_message st m).1.rows[j]? = some r1) ∧ _
    by_cases hc : m.tg_id == ""
    · unfold process_incoming_message
      rw [if_pos hc]
      exact ⟨r0, h, rfl, Or.inl rfl⟩
    · by_cases hp : should_process_message m
      · have hq := process_incoming_message_queued st m
          (by simpa using hc) hp
        rw [hq]
        simp only [update_client_activity_rows]
        rw [coordinate_rows_left st m j r0 h]
        refine ⟨_, rfl, ?_, ?_⟩
        · unfold supersede_mark
          split <;> rfl
        · unfold supersede_mark
          split
          · rename_i hcond
            have h2 : is_pending_or_processing r0.status = true :=
              (Bool.and_eq_true _ _ ▸ hcond).2
            rcases (is_pending_or_processing_iff r0.status).mp h2 with
              h3 | h3
            · exact Or.inr (Or.inl ⟨h3, Or.inl rfl⟩)
            · exact Or.inr (Or.inr (Or.inl ⟨h3, Or.inl rfl⟩))
          · exact Or.inl rfl
      · unfold process_incoming_message
        rw [if_neg (by simpa using hc)]
        rw [if_pos (by simpa using hp)]
        exact ⟨r0, h, rfl, Or.inl rfl⟩
  | claim_winner p c i =>
    show ∃ r1, ((try_claim_as_winner st p c i).1.rows[j]? = some r1) ∧ _
    rcases hfind : st.rows.find? (fun q => q.id == i) with _ | cur
    · rw [try_claim_eq_notfound st p c i hfind]
      exact ⟨r0, h, rfl, Or.inl rfl⟩
    · have hmark : ∀ st2now,
          allowed_change (CoordinatorOp.claim_winner p c i) r0.status
            (lose_mark { st with now := st2now } i r0).status := by
        intro st2now
        unfold lose_mark
        split
        · rename_i hcond
          have hne : (r0.status != MessageStatus.superseded) = true :=
            (Bool.and_eq_true _ _ ▸ hcond).2
          have hne2 : r0.status ≠ MessageStatus.superseded := by
            simpa using hne
          cases hst : r0.status
          · exact Or.inr (Or.inl ⟨rfl, Or.inl rfl⟩)
          · exact Or.inr (Or.inr (Or.inl ⟨rfl, Or.inl rfl⟩))
          · exact Or.inr (Or.inr (Or.inr (Or.inl ⟨rfl, rfl⟩)))
          · exact Or.inr (Or.inr (Or.inr (Or.inr (Or.inr ⟨rfl, rfl⟩))))
          · exact absurd hst hne2
        · exact Or.inl rfl
      rcases hlat : find_latest (st.rows.filter (in_winner_scan p c))
        with _ | latest
      · rw [try_claim_eq_emptyscan st p c i cur hfind hlat]
        simp only [List.getElem?_map, h, Option.map_some']
        exact ⟨_, rfl, (lose_mark_key st i r0).1, hmark st.now⟩
      · by_cases h3 : latest.id = i
        · rw [try_claim_eq_win st p c i cur latest hfind hlat h3]
          simp only [List.getElem?_map, h, Option.map_some']
          refine ⟨_, rfl, (win_mark_key st p c i r0).1, ?_⟩
          unfold win_mark
          split
          · rename_i hcond
            have hr0id : r0.id = i := by simpa using hcond
            have hlmem := List.mem_filter.mp (find_latest_mem hlat)
            have hlnc := ((mem_scan_iff p c latest).mp hlmem.2).2
            have hr0mem : r0 ∈ st.rows := List.getElem?_mem h
            have hr0eq : r0 = latest :=
              wf_id_inj hWF hr0mem hlmem.1 (by rw [hr0id, h3])
            have hr0nc : r0.status ≠ MessageStatus.cancelled := by
              rw [hr0eq]
              exact hlnc
            split
            · rename_i hne
              have hne2 : r0.status ≠ MessageStatus.completed := by
                simpa using hne
              cases hst : r0.status
              · exact Or.inr (Or.inl ⟨rfl, Or.inr rfl⟩)
              · exact Or.inr (Or.inr (Or.inl ⟨rfl, Or.inr rfl⟩))
              · exact absurd hst hne2
              · exact absurd hst hr0nc
              · exact Or.inr (Or.inr (Or.inr (Or.inr (Or.inl ⟨rfl, rfl⟩))))
            · exact Or.inl rfl
          · split
            · rename_i hcond2
              have hthree : (r0.status == MessageStatus.pending ||
                  r0.status == MessageStatus.processing ||
                  r0.status == MessageStatus.completed) = true :=
                (Bool.and_eq_true _ _ ▸ hcond2).2
              have : r0.status = MessageStatus.pending ∨
                  r0.status = MessageStatus.processing ∨
                  r0.status = MessageStatus.completed := by
                cases hst : r0.status <;> simp [hst] at hthree <;> simp
              rcases this with h4 | h4 | h4
              · exact Or.inr (Or.inl ⟨h4, Or.inl rfl⟩)
              · exact Or.inr (Or.inr (Or.inl ⟨h4, Or.inl rfl⟩))
              · exact Or.inr (Or.inr (Or.inr (Or.inl ⟨h4, rfl⟩)))
            · exact Or.inl rfl
        · rw [try_claim_eq_lose st p c i cur latest hfind hlat h3]
          simp only [List.getElem?_map, h, Option.map_some']
          exact ⟨_, rfl, (lose_mark_key st i r0).1, hmark st.now⟩
  | update_status i s =>
    show ∃ r1, ((update_message_status st i s).1.rows[j]? = some r1) ∧ _
    unfold update_message_status
    split
    · simp only [List.getElem?_map, h, Option.map_some']
      refine ⟨_, rfl, ?_, ?_⟩
      · split <;> rfl
      · split
        · exact Or.inr rfl
        · exact Or.inl rfl
    · exact ⟨r0, h, rfl, Or.inl rfl⟩
  | clear_queue p c =>
    show ∃ r1, ((clear_client_queue st p c).rows[j]? = some r1) ∧ _
    unfold clear_client_queue
    simp only [List.getElem?_map, h, Option.map_some']
    refine ⟨_, rfl, ?_, ?_⟩
    · split <;> rfl
    · split
      · rename_i hcond
        have h2 : is_pending_or_processing r0.status = true :=
          (Bool.and_eq_true _ _ ▸ hcond).2
        rcases (is_pending_or_processing_iff r0.status).mp h2 with h3 | h3
        · exact Or.inr (Or.inl ⟨h3, Or.inr rfl⟩)
        · exact Or.inr (Or.inr (Or.inl ⟨h3, Or.inr rfl⟩))
      · exact Or.inl rfl

def c7x_state : QState :=
  { rows := [
      { id := 0, project_id := "p", client_id := "c",
        original_message := "x", aggregated_message := "x",
        status := MessageStatus.pending, created_at := 1,
        updated_at := 1 }],
    activities := [], next_id := 1, now := 2 }

/-- C7, counterexample to the claimed table: `clear_client_queue` moves a
PENDING row directly to COMPLETED, which is outside
PENDING to PROCESSING/SUPERSEDED. -/
theorem status_transitions_counterexample :
    (clear_client_queue c7x_state "p" "c").rows.map (fun r => r.status) =
      [MessageStatus.completed] ∧
    c7x_state.rows.map (fun r => r.status) = [MessageStatus.pending] ∧
    (MessageStatus.completed ≠ MessageStatus.processing ∧
     MessageStatus.completed ≠ MessageStatus.superseded) := by
  refine ⟨?_, rfl, by decide⟩
  decide

/-- C7, witness: the amended transition theorem applied at a concrete
state and operation. -/
theorem status_transitions_witness :
    ∃ r1 : QRow,
      (apply_op c7x_state
        (CoordinatorOp.clear_queue "p" "c")).rows[0]? = some r1 ∧
      r1.id = 0 ∧
      allowed_change (CoordinatorOp.clear_queue "p" "c")
        MessageStatus.pending r1.status :=
  status_transitions c7x_state (CoordinatorOp.clear_queue "p" "c")
    (by decide) 0
    { id := 0, project_id := "p", client_id := "c",
      original_message := "x", aggregated_message := "x",
      status := MessageStatus.pending, created_at := 1, updated_at := 1 }
    (by decide)

/-! Exactly-one-winner scenario: N serialized submits for one client, then
a winner claim for each queued item, in any order. -/

/-- A fresh (non-retry) inbound event, as delivered by the webhook. -/
def mk_event (p c t : String) : SendPulseMessage :=
  { project_id := p, tg_id := c, response := t, retry := false, count := 1 }

/-- Queue item id reported by a submit outcome. -/
def result_id : SubmitResult → Nat
  | SubmitResult.queued i _ => i
  | SubmitResult.superseded_early i => i
  | _ => 0

/-- Serialized sequence of `process_incoming_message` calls for one
client, returning the final state and the queued item ids in order. -/
def submit_many (st : QState) (p c : String) :
    List String → QState × List Nat
  | [] => (st, [])
  | t :: rest =>
    let r := process_incoming_message st (mk_event p c t)
    let rest2 := submit_many r.1 p c rest
    (rest2.1, result_id r.2 :: rest2.2)

/-- Serialized sequence of `try_claim_as_winner` calls, one per item,
returning the final state and each call's WIN/LOSE outcome in order. -/
def claim_many (st : QState) (p c : String) :
    List Nat → QState × List Bool
  | [] => (st, [])
  | i :: rest =>
    let r := try_claim_as_winner st p c i
    let rest2 := claim_many r.1 p c rest
    (rest2.1, r.2 :: rest2.2)

/-- Row `lid` belongs to the client and is strictly newer than every other
row in the store. -/
def StrictLatest (st : QState) (p c : String) (lid : Nat) : Prop :=
  ∃ L ∈ st.rows, L.id = lid ∧ matches_client p c L = true ∧
    L.status ≠ MessageStatus.cancelled ∧
    ∀ q ∈ st.rows, q.id ≠ lid → q.created_at < L.created_at

theorem supersede_mark_key (st : QState) (p c : String) (r : QRow) :
    (supersede_mark st p c r).id = r.id ∧
    (supersede_mark st p c r).created_at = r.created_at ∧
    (supersede_mark st p c r).project_id = r.project_id ∧
    (supersede_mark st p c r).client_id = r.client_id := by
  refine ⟨?_, ?_, ?_, ?_⟩ <;>
    · unfold supersede_mark
      split <;> rfl

/-- Shape of the coordination state: superseded old rows plus the new
PENDING row. -/
theorem coordinate_rows_shape (st : QState) (m : SendPulseMessage) :
    (coordinate_client_messages st m).1.rows =
      st.rows.map (supersede_mark st m.project_id m.tg_id) ++
      [{ id := st.next_id, project_id := m.project_id,
         client_id := m.tg_id, original_message := m.response,
         aggregated_message := (coordinate_client_messages st m).2.aggregated,
         status := MessageStatus.pending, created_at := st.now,
         updated_at := st.now }] := rfl

/-- One queued submit: facts used by the exactly-one-winner argument. -/
theorem submit_one_spec (st : QState) (p c t : String) (hWF : WF st)
    (hc : c ≠ "") :
    result_id (process_incoming_message st (mk_event p c t)).2 =
      st.next_id ∧
    WF (process_incoming_message st (mk_event p c t)).1 ∧
    (process_incoming_message st (mk_event p c t)).1.next_id =
      st.next_id + 1 ∧
    StrictLatest (process_incoming_message st (mk_event p c t)).1 p c
      st.next_id := by
  have hp : should_process_message (mk_event p c t) = true := rfl
  have hq := process_incoming_message_queued st (mk_event p c t) hc hp
  have hrows : (process_incoming_message st (mk_event p c t)).1.rows =
      st.rows.map (supersede_mark st p c) ++
      [{ id := st.next_id, project_id := p, client_id := c,
         original_message := t,
         aggregated_message :=
           (coordinate_client_messages st (mk_event p c t)).2.aggregated,
         status := MessageStatus.pending, created_at := st.now,
         updated_at := st.now }] := by
    rw [hq]
    rw [update_client_activity_rows]
    exact coordinate_rows_shape st (mk_event p c t)
  have hnid : (process_incoming_message st (mk_event p c t)).1.next_id =
      st.next_id + 1 := by
    rw [hq]
    rw [update_client_activity_next_id]
    rfl
  have hnow : (process_incoming_message st (mk_event p c t)).1.now =
      st.now + 1 := by
    rw [hq]
    rw [update_client_activity_now]
    rfl
  refine ⟨by rw [hq]; rfl, ⟨?_, ?_⟩, hnid, ?_⟩
  · intro q hq2
    rw [hrows] at hq2
    rw [hnid, hnow]
    rcases List.mem_append.mp hq2 with h2 | h2
    · rcases List.mem_map.mp h2 with ⟨q0, hq0, rfl⟩
      have hb := hWF.1 q0 hq0
      have hk := supersede_mark_key st p c q0
      rw [hk.1, hk.2.1]
      omega
    · rw [List.mem_singleton.mp h2]
      show st.next_id < st.next_id + 1 ∧ st.now < st.now + 1
      omega
  · rw [hrows]
    rw [List.pairwise_append]
    refine ⟨?_, List.pairwise_singleton _ _, ?_⟩
    · rw [List.pairwise_map]
      refine hWF.2.imp_of_mem ?_
      intro a b _ _ hab
      have hka := supersede_mark_key st p c a
      have hkb := supersede_mark_key st p c b
      rw [hka.1, hka.2.1, hkb.1, hkb.2.1]
      exact hab
    · intro a ha b hb
      rcases List.mem_map.mp ha with ⟨a0, ha0, rfl⟩
      rw [List.mem_singleton.mp hb]
      have hba := hWF.1 a0 ha0
      have hka := supersede_mark_key st p c a0
      rw [hka.1, hka.2.1]
      show a0.id ≠ st.next_id ∧ a0.created_at < st.now
      omega
  · have hLmem :
        ({ id := st.next_id, project_id := p, client_id := c,
           original_message := t,
           aggregated_message :=
             (coordinate_client_messages st (mk_event p c t)).2.aggregated,
           status := MessageStatus.pending, created_at := st.now,
           updated_at := st.now } : QRow) ∈
          (process_incoming_message st (mk_event p c t)).1.rows := by
      rw [hrows]
      exact List.mem_append_right _ (List.mem_singleton_self _)
    refine ⟨_, hLmem, rfl, by simp [matches_client], by simp, ?_⟩
    intro q hq2 hqid
    rw [hrows] at hq2
    rcases List.mem_append.mp hq2 with h2 | h2
    · rcases List.mem_map.mp h2 with ⟨q0, hq0, rfl⟩
      have hb := hWF.1 q0 hq0
      have hk := supersede_mark_key st p c q0
      rw [hk.2.1]
      exact hb.2
    · rw [List.mem_singleton.mp h2] at hqid
      exact absurd rfl hqid

theorem submit_many_cons (st : QState) (p c t : String)
    (rest : List String) :
    submit_many st p c (t :: rest) =
      ((submit_many (process_incoming_message st (mk_event p c t)).1 p c
          rest).1,
       result_id (process_incoming_message st (mk_event p c t)).2 ::
         (submit_many (process_incoming_message st (mk_event p c t)).1 p c
            rest).2) := rfl

theorem submit_many_nil (st : QState) (p c : String) :
    submit_many st p c [] = (st, []) := rfl

/-- Cumulative facts about a nonempty serialized submit sequence: the
final state is well-formed, the ids are strictly increasing and bracketed
by the id supply, and the last queued item is strictly newer than every
other row. -/
theorem submit_many_spec (p c : String) (hc : c ≠ "") :
    ∀ (texts : List String) (st : QState), WF st → texts ≠ [] →
      WF (submit_many st p c texts).1 ∧
      st.next_id ≤ (submit_many st p c texts).1.next_id ∧
      (∀ i ∈ (submit_many st p c texts).2,
        st.next_id ≤ i ∧ i < (submit_many st p c texts).1.next_id) ∧
      (submit_many st p c texts).2.Pairwise (· < ·) ∧
      ∃ lid, (submit_many st p c texts).2.getLast? = some lid ∧
        StrictLatest (submit_many st p c texts).1 p c lid := by
  intro texts
  induction texts with
  | nil => intro st _ h; exact absurd rfl h
  | cons t rest ih =>
    intro st hWF _
    rcases submit_one_spec st p c t hWF hc with ⟨hid, hWF1, hnid1, hlatest1⟩
    rw [submit_many_cons]
    by_cases hrest : rest = []
    · subst hrest
      rw [submit_many_nil]
      dsimp only
      refine ⟨hWF1, by omega, ?_, List.pairwise_singleton _ _,
        st.next_id, ?_, hlatest1⟩
      · intro i hi
        rcases List.mem_singleton.mp hi with rfl
        rw [hid, hnid1]
        omega
      · rw [hid]
        rfl
    · rcases ih (process_incoming_message st (mk_event p c t)).1 hWF1 hrest
        with ⟨ihWF, ihnid, ihbounds, ihpair, lid, ihlast, ihlatest⟩
      dsimp only
      have hidsne : (submit_many
          (process_incoming_message st (mk_event p c t)).1 p c rest).2 ≠
          [] := by
        intro hcon
        rw [hcon] at ihlast
        cases ihlast
      refine ⟨ihWF, by omega, ?_, ?_, lid, ?_, ihlatest⟩
      · intro i hi
        rcases List.mem_cons.mp hi with rfl | hi2
        · rw [hid]
          omega
        · have hb := ihbounds i hi2
          omega
      · rw [List.pairwise_cons]
        refine ⟨?_, ihpair⟩
        intro i hi
        have hb := ihbounds i hi
        rw [hid]
        omega
      · rcases hids2 : (submit_many
            (process_incoming_message st (mk_event p c t)).1 p c rest).2
          with _ | ⟨y, ys⟩
        · exact absurd hids2 hidsne
        · rw [hids2] at ihlast
          rw [List.getLast?_cons_cons]
          exact ihlast

theorem claim_many_cons (st : QState) (p c : String) (i : Nat)
    (rest : List Nat) :
    claim_many st p c (i :: rest) =
      ((claim_many (try_claim_as_winner st p c i).1 p c rest).1,
       (try_claim_as_winner st p c i).2 ::
         (claim_many (try_claim_as_winner st p c i).1 p c rest).2) := rfl

theorem claim_one_result (st : QState) (p c : String) (lid : Nat)
    (hWF : WF st) (hL : StrictLatest st p c lid) (i : Nat) :
    ((try_claim_as_winner st p c i).2 = true ↔ i = lid) := by
  rw [try_claim_wins_iff st p c i hWF]
  constructor
  · rintro ⟨w, hw, hwid, hwc, hwnc, hwmax⟩
    by_contra hne
    rcases hL with ⟨L, hLmem, hLid, hLc, hLnc, hLmax⟩
    have h1 : w.created_at < L.created_at :=
      hLmax w hw (by rw [hwid]; exact hne)
    have h2 : L.created_at < w.created_at :=
      hwmax L hLmem hLc hLnc
        (by rw [hLid]; intro hcon; exact hne hcon.symm)
    omega
  · rintro rfl
    rcases hL with ⟨L, hLmem, hLid, hLc, hLnc, hLmax⟩
    exact ⟨L, hLmem, hLid, hLc, hLnc,
      fun q hq _ _ hqid => hLmax q hq hqid⟩

theorem claim_preserves_latest (st : QState) (p c : String) (lid i : Nat)
    (hL : StrictLatest st p c lid) :
    StrictLatest (try_claim_as_winner st p c i).1 p c lid := by
  rcases try_claim_rows_cases st p c i with ⟨h1, _, _⟩ |
    ⟨f, h1, hkey, hstat, _, _⟩
  · unfold StrictLatest at hL ⊢
    rw [h1]
    exact hL
  · rcases hL with ⟨L, hLmem, hLid, hLc, hLnc, hLmax⟩
    refine ⟨f L, ?_, ?_, ?_, ?_, ?_⟩
    · rw [h1]
      exact List.mem_map_of_mem f hLmem
    · rw [(hkey L).1]
      exact hLid
    · unfold matches_client at hLc ⊢
      rw [(hkey L).2.2.1, (hkey L).2.2.2]
      exact hLc
    · rcases hstat L with h | h | h
      · rw [h]
        exact hLnc
      · rw [h]
        simp
      · rw [h]
        simp
    · intro q hq hqid
      rw [h1] at hq
      rcases List.mem_map.mp hq with ⟨q0, hq0, rfl⟩
      rw [(hkey q0).1] at hqid
      rw [(hkey q0).2.1, (hkey L).2.1]
      exact hLmax q0 hq0 hqid

theorem claim_many_count (p c : String) :
    ∀ (order : List Nat) (st : QState) (lid : Nat), WF st →
      StrictLatest st p c lid →
      (claim_many st p c order).2.count true = order.count lid := by
  intro order
  induction order with
  | nil => intro st lid _ _; rfl
  | cons i rest ih =>
    intro st lid hWF hL
    rw [claim_many_cons]
    dsimp only
    rw [List.count_cons, List.count_cons]
    rw [ih (try_claim_as_winner st p c i).1 lid (try_claim_WF st p c i hWF)
      (claim_preserves_latest st p c lid i hL)]
    congr 1
    have hiff := claim_one_result st p c lid hWF hL i
    by_cases hi : i = lid
    · have hb : (try_claim_as_winner st p c i).2 = true := hiff.mpr hi
      rw [hb]
      simp [hi]
    · have hb : (try_claim_as_winner st p c i).2 = false := by
        rcases Bool.eq_false_or_eq_true (try_claim_as_winner st p c i).2
          with h | h
        · exact absurd (hiff.mp h) hi
        · exact h
      rw [hb]
      simp [hi]

/-- C1 (exactly one winner), theorem. Starting from any well-formed state,
submit N >= 1 fresh events for one (project_id, client_id) serially
(each event passes the retry gate, so each coordination step runs under
the per-client lock and queues one item).  Then run one
`try_claim_as_winner` for each queued item, serially, in any order and
with no further submits in between.  Exactly one of the N claims returns
WIN. -/
theorem exactly_one_winner (st : QState) (p c : String)
    (texts : List String) (order : List Nat) (hWF : WF st) (hc : c ≠ "")
    (ht : texts ≠ [])
    (hperm : order.Perm (submit_many st p c texts).2) :
    (claim_many (submit_many st p c texts).1 p c order).2.count true = 1 := by
  rcases submit_many_spec p c hc texts st hWF ht with
    ⟨hWF1, _, _, hpair, lid, hlast, hlatest⟩
  rw [claim_many_count p c order _ lid hWF1 hlatest]
  rw [hperm.count_eq]
  have hmem : lid ∈ (submit_many st p c texts).2 :=
    List.mem_of_mem_getLast? hlast
  have hnodup : (submit_many st p c texts).2.Nodup :=
    hpair.imp (fun hab => Nat.ne_of_lt hab)
  exact List.count_eq_one_of_mem hnodup hmem

/-- C1, witness: two events for one client, winner claims run in reverse
order; exactly one claim wins. -/
theorem exactly_one_winner_witness :
    (claim_many
      (submit_many { rows := [], activities := [], next_id := 1, now := 1 }
        "p" "c" ["hi", "tomorrow at 14:00"]).1
      "p" "c" [2, 1]).2.count true = 1 :=
  exactly_one_winner
    { rows := [], activities := [], next_id := 1, now := 1 }
    "p" "c" ["hi", "tomorrow at 14:00"] [2, 1]
    (by decide) (by decide) (by decide) (by decide)

def c4w_state : QState :=
  { rows := [
      { id := 0, project_id := "p", client_id := "c",
        original_message := "Hi", aggregated_message := "Hi",
        status := MessageStatus.pending, created_at := 1,
        updated_at := 1 }],
    activities := [], next_id := 1, now := 2 }

def c4w_msg : SendPulseMessage :=
  { project_id := "p", tg_id := "c", response := "tomorrow at 14:00",
    retry := false, count := 1 }

/-- C4, witness: aggregation of a pending "Hi" with a new message. -/
theorem submit_aggregation_witness :
    ∃ nr : QRow,
      (process_incoming_message c4w_state c4w_msg).1.rows.getLast? =
        some nr ∧
      nr.status = MessageStatus.pending ∧
      nr.project_id = c4w_msg.project_id ∧ nr.client_id = c4w_msg.tg_id ∧
      nr.aggregated_message = String.intercalate " "
        ((c4w_state.rows.filter (fun r =>
            matches_client c4w_msg.project_id c4w_msg.tg_id r &&
            is_pending_or_processing r.status)).map
          (fun r => r.aggregated_message) ++ [c4w_msg.response]) ∧
      (process_incoming_message c4w_state c4w_msg).2 =
        SubmitResult.queued nr.id nr.aggregated_message :=
  (submit_aggregation c4w_state c4w_msg (by decide) (by decide) (by decide)
    (by decide)).2.2.1

/-- C5, witness: the retry-skip rule applied to a concrete duplicate
delivery. -/
theorem retry_skip_witness :
    ((process_incoming_message
        { rows := [], activities := [], next_id := 1, now := 1 }
        { project_id := "p", tg_id := "c", response := "x",
          retry := true, count := 0 }).2 = SubmitResult.skipped ↔
      ((true : Bool) = true ∧ (0 : Nat) = 0)) :=
  (retry_skip
    { rows := [], activities := [], next_id := 1, now := 1 }
    { project_id := "p", tg_id := "c", response := "x",
      retry := true, count := 0 }
    (by decide)).1

/-!
Part 2 embeds the booking-slot allocator: `BookingService`
(`src/app/services/booking_service.py`), the availability computation of
`GoogleSheetsService._get_available_slots_for_specialist`
(`src/app/services/google_sheets.py`) and the local recalculation
`recalculate_slots_for_duration` (`src/app/utils/slot_calculator.py`).
Dates are day numbers; clock times are minutes of the day, `datetime.time()`
after arithmetic is `% 1440`.  Work hours are parsed from HH:MM strings, so
`work_end <= 1439` always holds at the call sites; time labels are the raw
minute values (HH:MM formatting is injective below 1440).  The string
parsing prologues of the handlers are modelled by `Option` inputs: `none`
is a missing or unparsable field, and every parse failure returns a
failure dictionary without touching the store.
-/

/-- Booking status strings used by `booking_service.py`. -/
inductive BookingStatus where
  | active
  | cancelled
  deriving DecidableEq, Repr

/-- One row of the `bookings` table (`Booking` ORM model). -/
structure Booking where
  id : Nat
  project_id : String
  specialist_name : String
  appointment_date : Nat
  appointment_time : Nat
  client_id : String
  client_name : String
  service_name : String
  client_phone : String
  duration_minutes : Nat
  status : BookingStatus
  created_at : Nat
  updated_at : Nat
  deriving DecidableEq, Repr

/-- Booking store with id supply and clock, as for the message queue. -/
structure BState where
  bookings : List Booking
  next_id : Nat
  now : Nat
  deriving DecidableEq, Repr

/-- Project configuration fields used by the allocator
(`src/app/config.py`: specialists, services (name to slot count), and
`work_hours` parsed from HH:MM). -/
structure BProjectConfig where
  project_id : String
  specialists : List String
  services : List (String × Nat)
  work_start : Nat
  work_end : Nat
  deriving DecidableEq, Repr

/-- Occupied slot start times (as times of day) that a request at `t`
lasting `duration_slots` slots would cover; the loop of
`_is_slot_available` lines 394-397. -/
def occupied_slot_times (t : Nat) (duration_slots : Nat) : List Nat :=
  (List.range duration_slots).map (fun i => (t + 30 * i) % 1440)

/-- Embeds `BookingService._is_slot_available`
(`src/app/services/booking_service.py` lines 391-422).  The
`exclude_booking_id` filter is applied only when the id is truthy
(non-zero), as in the Python `if exclude_booking_id:`. -/
def is_slot_available (cfg : BProjectConfig) (st : BState)
    (specialist : String) (booking_date : Nat) (booking_time : Nat)
    (duration_slots : Nat) (exclude_booking_id : Option Nat) : Bool :=
  let occupied_slots := occupied_slot_times booking_time duration_slots
  let existing := st.bookings.filter (fun b =>
    b.project_id == cfg.project_id && b.specialist_name == specialist &&
    b.appointment_date == booking_date &&
    b.status == BookingStatus.active &&
    (match exclude_booking_id with
     | some e => if e != 0 then b.id != e else true
     | none => true))
  existing.all (fun b =>
    (List.range (b.duration_minutes / 30)).all (fun i =>
      !(occupied_slots.contains ((b.appointment_time + 30 * i) % 1440))))

/-- Occupied slot start times of a list of bookings: the `occupied_slots`
set of `_get_available_slots_for_specialist`
(`src/app/services/google_sheets.py` lines 386-392). -/
def occupied_slots_of (bookings : List Booking) : List Nat :=
  bookings.flatMap (fun b =>
    (List.range (b.duration_minutes / 30)).map
      (fun i => (b.appointment_time + 30 * i) % 1440))

/-- Number of iterations of the slot-generation while loop: candidates
`work_start + 30*k` with `candidate + 30*time_fraction <= work_end`. -/
def slot_grid_size (work_start work_end time_fraction : Nat) : Nat :=
  if work_start + 30 * time_fraction ≤ work_end then
    (work_end - (work_start + 30 * time_fraction)) / 30 + 1
  else 0

/-- The consecutive-run freeness check of the while loop (lines 404-410). -/
def run_is_free (occ : List Nat) (t : Nat) (time_fraction : Nat) : Bool :=
  (List.range time_fraction).all
    (fun i => !(occ.contains ((t + 30 * i) % 1440)))

/-- Embeds `GoogleSheetsService._get_available_slots_for_specialist`
(`src/app/services/google_sheets.py` lines 376-418): all grid start times
whose whole `time_fraction`-slot run lies within work hours and misses the
occupied set. -/
def get_available_slots_for_specialist (bookings : List Booking)
    (work_start work_end : Nat) (time_fraction : Nat) : List Nat :=
  let occ := occupied_slots_of bookings
  ((List.range (slot_grid_size work_start work_end time_fraction)).map
    (fun k => work_start + 30 * k)).filter
    (fun t => run_is_free occ t time_fraction)

/-- Embeds `recalculate_slots_for_duration`
(`src/app/utils/slot_calculator.py` lines 4-36): keep a slot of the
one-slot availability list if the next `time_fraction - 1` half-hour
labels are also in the list. -/
def recalculate_slots_for_duration (available_slots : List Nat)
    (time_fraction : Nat) : List Nat :=
  if time_fraction == 1 then available_slots
  else available_slots.filter (fun s =>
    (List.range (time_fraction - 1)).all (fun i =>
      available_slots.contains ((s + 30 * (i + 1)) % 1440)))

theorem bool_eq_of_iff {a b : Bool} (h : a = true ↔ b = true) : a = b := by
  cases a <;> cases b <;> simp_all

/-- The candidate grid contains exactly the aligned start times whose run
fits in work hours. -/
theorem mem_slot_grid_iff (ws we f t : Nat) :
    t ∈ (List.range (slot_grid_size ws we f)).map (fun k => ws + 30 * k) ↔
      (∃ k, t = ws + 30 * k) ∧ t + 30 * f ≤ we := by
  constructor
  · intro h
    rcases List.mem_map.mp h with ⟨k, hk, rfl⟩
    have hk2 := List.mem_range.mp hk
    unfold slot_grid_size at hk2
    split at hk2
    · rename_i hle
      refine ⟨⟨k, rfl⟩, ?_⟩
      have h3 : k ≤ (we - (ws + 30 * f)) / 30 := by omega
      have h4 : (we - (ws + 30 * f)) / 30 * 30 ≤ we - (ws + 30 * f) :=
        Nat.div_mul_le_self _ _
      have h5 : k * 30 ≤ (we - (ws + 30 * f)) / 30 * 30 :=
        Nat.mul_le_mul_right _ h3
      omega
    · omega
  · rintro ⟨⟨k, rfl⟩, hb⟩
    refine List.mem_map.mpr ⟨k, List.mem_range.mpr ?_, rfl⟩
    unfold slot_grid_size
    split
    · rename_i hle
      have h2 : k * 30 ≤ we - (ws + 30 * f) := by omega
      have h3 : k ≤ (we - (ws + 30 * f)) / 30 :=
        (Nat.le_div_iff_mul_le (by omega)).mpr h2
      omega
    · omega

theorem run_is_free_iff (occ : List Nat) (t f : Nat) :
    run_is_free occ t f = true ↔
      ∀ i < f, ¬ ((t + 30 * i) % 1440) ∈ occ := by
  unfold run_is_free
  rw [List.all_eq_true]
  constructor
  · intro h i hi
    have h2 := h i (List.mem_range.mpr hi)
    simpa using h2
  · intro h i hi
    have h2 := h i (List.mem_range.mp hi)
    simpa using h2

/-- Membership in the one-slot availability list. -/
theorem mem_avail_one_iff (bookings : List Booking) (ws we s : Nat) :
    s ∈ get_available_slots_for_specialist bookings ws we 1 ↔
      ((∃ k, s = ws + 30 * k) ∧ s + 30 ≤ we ∧
       ¬ (s % 1440) ∈ occupied_slots_of bookings) := by
  unfold get_available_slots_for_specialist
  rw [List.mem_filter]
  rw [mem_slot_grid_iff]
  rw [run_is_free_iff]
  constructor
  · rintro ⟨⟨hk, hb⟩, hfree⟩
    refine ⟨hk, by omega, ?_⟩
    have := hfree 0 (by omega)
    simpa using this
  · rintro ⟨hk, hb, hocc⟩
    refine ⟨⟨hk, by omega⟩, ?_⟩
    intro i hi
    have : i = 0 := by omega
    subst this
    simpa using hocc

theorem slot_grid_size_mono (ws we f : Nat) (hf : 1 ≤ f) :
    slot_grid_size ws we f ≤ slot_grid_size ws we 1 := by
  unfold slot_grid_size
  split
  · rename_i h1
    rw [if_pos (by omega)]
    have h2 : we - (ws + 30 * f) ≤ we - (ws + 30 * 1) := by omega
    have h3 := Nat.div_le_div_right (c := 30) h2
    omega
  · omega

theorem slot_grid_size_bound (ws we f k : Nat)
    (hk : slot_grid_size ws we f ≤ k) :
    ¬ (ws + 30 * k + 30 * f ≤ we) := by
  unfold slot_grid_size at hk
  split at hk
  · rename_i h1
    have hdm := Nat.div_add_mod (we - (ws + 30 * f)) 30
    have hmlt : (we - (ws + 30 * f)) % 30 < 30 := Nat.mod_lt _ (by omega)
    omega
  · rename_i h1
    omega

theorem grid_filter_bound (occ : List Nat) (ws we f : Nat)
    (hff : 1 ≤ f) :
    ((List.range (slot_grid_size ws we 1)).map (fun k => ws + 30 * k)).filter
      (fun t => decide (t + 30 * f ≤ we) && run_is_free occ t f) =
    ((List.range (slot_grid_size ws we f)).map (fun k => ws + 30 * k)).filter
      (fun t => run_is_free occ t f) := by
  have hle := slot_grid_size_mono ws we f hff
  · 
    rw [show slot_grid_size ws we 1 =
      slot_grid_size ws we f +
        (slot_grid_size ws we 1 - slot_grid_size ws we f) by omega]
    rw [List.range_add _ _, List.map_append, List.filter_append]
    have h2 : (((List.range
        (slot_grid_size ws we 1 - slot_grid_size ws we f)).map
          (fun x => slot_grid_size ws we f + x)).map
        (fun k => ws + 30 * k)).filter
        (fun t => decide (t + 30 * f ≤ we) && run_is_free occ t f) =
        [] := by
      rw [List.filter_eq_nil_iff]
      intro a ha
      rcases List.mem_map.mp ha with ⟨k, hk, rfl⟩
      rcases List.mem_map.mp hk with ⟨j, _, rfl⟩
      have hb := slot_grid_size_bound ws we f (slot_grid_size ws we f + j)
        (by omega)
      simp [hb]
    rw [h2, List.append_nil]
    apply List.filter_congr
    intro t ht
    rcases (mem_slot_grid_iff ws we f t).mp ht with ⟨_, hb⟩
    rw [decide_eq_true hb, Bool.true_and]

/-- Pointwise agreement, on the one-slot grid, of the recalculation
filter with the direct multi-slot availability condition. -/
theorem recalc_pointwise (occ : List Nat) (L : List Nat) (ws we f : Nat)
    (hf : 1 ≤ f) (hwe : we < 1440)
    (hL : ∀ s, s ∈ L ↔
      ((∃ k, s = ws + 30 * k) ∧ s + 30 ≤ we ∧ ¬ (s % 1440) ∈ occ))
    (t : Nat)
    (ht : t ∈ (List.range (slot_grid_size ws we 1)).map
      (fun k => ws + 30 * k)) :
    ((List.range (f - 1)).all
        (fun i => L.contains ((t + 30 * (i + 1)) % 1440)) &&
      run_is_free occ t 1) =
    (decide (t + 30 * f ≤ we) && run_is_free occ t f) := by
  apply bool_eq_of_iff
  rw [Bool.and_eq_true, Bool.and_eq_true, List.all_eq_true]
  rw [run_is_free_iff, run_is_free_iff]
  simp only [decide_eq_true_eq]
  rcases (mem_slot_grid_iff ws we 1 t).mp ht with ⟨⟨k, hkt⟩, hb1⟩
  constructor
  · rintro ⟨hQ, hfree1⟩
    have hQ2 : ∀ i, i < f - 1 →
        ((t + 30 * (i + 1)) % 1440) ∈ L := by
      intro i hi
      have h2 := hQ i (List.mem_range.mpr hi)
      exact List.elem_iff.mp (by simpa using h2)
    have chain : ∀ j, j ≤ f - 1 → t + 30 * j + 30 ≤ we := by
      intro j
      induction j with
      | zero => intro _; omega
      | succ j ih =>
        intro hj
        have hprev := ih (by omega)
        have hlt : t + 30 * (j + 1) < 1440 := by omega
        have hmem := hQ2 j (by omega)
        rw [Nat.mod_eq_of_lt hlt] at hmem
        rcases (hL _).mp hmem with ⟨_, hbb, _⟩
        omega
    refine ⟨?_, ?_⟩
    · have := chain (f - 1) (by omega)
      omega
    · intro i hi
      rcases Nat.eq_zero_or_pos i with rfl | hpos
      · exact hfree1 0 (by omega)
      · obtain ⟨j, rfl⟩ : ∃ j, i = j + 1 := ⟨i - 1, by omega⟩
        have hmem := hQ2 j (by omega)
        have hlt : t + 30 * (j + 1) < 1440 := by
          have := chain j (by omega)
          omega
        rw [Nat.mod_eq_of_lt hlt] at hmem
        rcases (hL _).mp hmem with ⟨_, _, hoc⟩
        rw [Nat.mod_eq_of_lt hlt] at hoc
        rw [Nat.mod_eq_of_lt (by omega)]
        exact hoc
  · rintro ⟨hbf, hfree⟩
    refine ⟨?_, ?_⟩
    · intro i hi0
      have hi := List.mem_range.mp hi0
      have hlt : t + 30 * (i + 1) < 1440 := by omega
      have hmem : (t + 30 * (i + 1)) ∈ L := by
        rw [hL]
        refine ⟨⟨k + (i + 1), by omega⟩, by omega, ?_⟩
        rw [Nat.mod_eq_of_lt hlt]
        have := hfree (i + 1) (by omega)
        rw [Nat.mod_eq_of_lt hlt] at this
        exact this
      rw [Nat.mod_eq_of_lt hlt]
      simpa using List.elem_iff.mpr hmem
    · intro i hi
      have : i = 0 := by omega
      subst this
      exact hfree 0 (by omega)

/-- C10 (local slot-recalculation equivalence), theorem. For work hours
parsed from HH:MM (so `work_end < 1440`) and any duration
`time_fraction >= 1`, recalculating the one-slot availability list locally
yields exactly the list obtained by computing availability directly for
that duration. -/
theorem recalculate_slots_equiv (bookings : List Booking) (ws we f : Nat)
    (hf : 1 ≤ f) (hwe : we < 1440) :
    recalculate_slots_for_duration
      (get_available_slots_for_specialist bookings ws we 1) f =
    get_available_slots_for_specialist bookings ws we f := by
  by_cases hf1 : f = 1
  · subst hf1
    simp [recalculate_slots_for_duration]
  · have hne : (f == 1) = false := by simp [hf1]
    have e1 : get_available_slots_for_specialist bookings ws we 1 =
        ((List.range (slot_grid_size ws we 1)).map
          (fun k => ws + 30 * k)).filter
          (fun t => run_is_free (occupied_slots_of bookings) t 1) := rfl
    have ef : get_available_slots_for_specialist bookings ws we f =
        ((List.range (slot_grid_size ws we f)).map
          (fun k => ws + 30 * k)).filter
          (fun t => run_is_free (occupied_slots_of bookings) t f) := rfl
    have hL : ∀ s, s ∈ ((List.range (slot_grid_size ws we 1)).map
        (fun k => ws + 30 * k)).filter
        (fun t => run_is_free (occupied_slots_of bookings) t 1) ↔
        ((∃ k, s = ws + 30 * k) ∧ s + 30 ≤ we ∧
         ¬ (s % 1440) ∈ occupied_slots_of bookings) := by
      intro s
      rw [← e1]
      exact mem_avail_one_iff bookings ws we s
    unfold recalculate_slots_for_duration
    rw [hne]
    simp only [Bool.false_eq_true, if_false]
    rw [e1, ef]
    rw [List.filter_filter]
    rw [List.filter_congr (fun t ht => recalc_pointwise
      (occupied_slots_of bookings) _ ws we f hf hwe hL t ht)]
    exact grid_filter_bound (occupied_slots_of bookings) ws we f hf

/-- Booking rows laid out on the half-hour grid, not crossing midnight:
the shape every row created by the allocator has. -/
def aligned_booking (b : Booking) : Prop :=
  b.appointment_time % 30 = 0 ∧ b.duration_minutes % 30 = 0 ∧
  b.appointment_time + b.duration_minutes ≤ 1440

instance (b : Booking) : Decidable (aligned_booking b) := by
  unfold aligned_booking
  infer_instance

/-- For aligned bookings, the occupied slot-start set is exactly coverage
of aligned points by the booking time ranges. -/
theorem occupied_slots_of_iff (bookings : List Booking)
    (halign : ∀ b ∈ bookings, aligned_booking b)
    (s : Nat) (hs : s < 1440) (hs30 : s % 30 = 0) :
    s ∈ occupied_slots_of bookings ↔
      ∃ b ∈ bookings, b.appointment_time ≤ s ∧
        s < b.appointment_time + b.duration_minutes := by
  unfold occupied_slots_of
  rw [List.mem_flatMap]
  constructor
  · rintro ⟨b, hb, hmem⟩
    rcases List.mem_map.mp hmem with ⟨i, hi, heq⟩
    have hi2 := List.mem_range.mp hi
    rcases halign b hb with ⟨ha1, ha2, ha3⟩
    have hdm := Nat.div_add_mod b.duration_minutes 30
    have hcov : b.appointment_time + 30 * i < 1440 := by
      have h4 : i * 30 < b.duration_minutes / 30 * 30 :=
        (Nat.mul_lt_mul_right (by omega)).mpr hi2
      have h5 := Nat.div_mul_le_self b.duration_minutes 30
      omega
    rw [Nat.mod_eq_of_lt hcov] at heq
    refine ⟨b, hb, by omega, ?_⟩
    have h4 : (i + 1) * 30 ≤ b.duration_minutes / 30 * 30 :=
      Nat.mul_le_mul_right _ (by omega)
    have h5 := Nat.div_mul_le_self b.duration_minutes 30
    omega
  · rintro ⟨b, hb, h1, h2⟩
    rcases halign b hb with ⟨ha1, ha2, ha3⟩
    refine ⟨b, hb, ?_⟩
    have hdvd : (s - b.appointment_time) % 30 = 0 := by omega
    refine List.mem_map.mpr ⟨(s - b.appointment_time) / 30, ?_, ?_⟩
    · rw [List.mem_range]
      have hdm := Nat.div_add_mod (s - b.appointment_time) 30
      have hdm2 := Nat.div_add_mod b.duration_minutes 30
      have : (s - b.appointment_time) / 30 * 30 < b.duration_minutes := by
        omega
      omega
    · have hdm := Nat.div_add_mod (s - b.appointment_time) 30
      have heq : b.appointment_time +
          30 * ((s - b.appointment_time) / 30) = s := by omega
      rw [heq, Nat.mod_eq_of_lt hs]

def anna_booking : Booking :=
  { id := 1, project_id := "p", specialist_name := "Anna",
    appointment_date := 0, appointment_time := 600, client_id := "x",
    client_name := "", service_name := "", client_phone := "",
    duration_minutes := 30, status := BookingStatus.active,
    created_at := 0, updated_at := 0 }

def offgrid_booking : Booking :=
  { id := 1, project_id := "p", specialist_name := "Anna",
    appointment_date := 0, appointment_time := 615, client_id := "x",
    client_name := "", service_name := "", client_phone := "",
    duration_minutes := 30, status := BookingStatus.active,
    created_at := 0, updated_at := 0 }

/-- C6, counterexample to the claim as stated over every set of active
bookings: with an active booking at 10:15-10:45 (minute 615, off the
half-hour grid), the start time 10:30 (minute 630) is returned as
available although it is covered by the booking's occupied range - the
code compares slot starts for equality instead of testing range overlap. -/
theorem available_slots_counterexample :
    630 ∈ get_available_slots_for_specialist [offgrid_booking] 540 1080 1 ∧
    offgrid_booking.status = BookingStatus.active ∧
    offgrid_booking.appointment_time ≤ 630 ∧
    630 < offgrid_booking.appointment_time +
        offgrid_booking.duration_minutes ∧
    540 + 30 * 3 = 630 ∧ 630 + 30 * 1 ≤ 1080 := by
  refine ⟨?_, rfl, by decide, by decide, by decide, by decide⟩
  decide

/-- C6 (GetAvailableSlots criterion), amended theorem. For work hours on
the half-hour grid (`work_start % 30 = 0`, `work_end < 1440`), bookings
aligned to that grid, and `time_fraction >= 1`: a start time is returned
iff it is a grid point, its whole run fits before `work_end`, and none of
its `time_fraction` slot starts is covered by any listed (active)
booking's occupied range.  In particular back-to-back bookings do not
conflict, since coverage is strict at the range end. -/
theorem available_slots_characterization (bookings : List Booking)
    (ws we f : Nat) (hf : 1 ≤ f) (hwe : we < 1440) (hws : ws % 30 = 0)
    (halign : ∀ b ∈ bookings, aligned_booking b) (t : Nat) :
    t ∈ get_available_slots_for_specialist bookings ws we f ↔
      ((∃ k, t = ws + 30 * k) ∧ t + 30 * f ≤ we ∧
       ∀ i < f, ¬ ∃ b ∈ bookings, b.appointment_time ≤ t + 30 * i ∧
         t + 30 * i < b.appointment_time + b.duration_minutes) := by
  unfold get_available_slots_for_specialist
  rw [List.mem_filter, mem_slot_grid_iff, run_is_free_iff]
  constructor
  · rintro ⟨⟨⟨k, rfl⟩, hb⟩, hfree⟩
    refine ⟨⟨k, rfl⟩, hb, ?_⟩
    intro i hi
    have hlt : ws + 30 * k + 30 * i < 1440 := by omega
    have h2 := hfree i hi
    rw [Nat.mod_eq_of_lt hlt] at h2
    rw [← occupied_slots_of_iff bookings halign _ hlt (by omega)]
    exact h2
  · rintro ⟨⟨k, rfl⟩, hb, hcov⟩
    refine ⟨⟨⟨k, rfl⟩, hb⟩, ?_⟩
    intro i hi
    have hlt : ws + 30 * k + 30 * i < 1440 := by omega
    rw [Nat.mod_eq_of_lt hlt]
    rw [occupied_slots_of_iff bookings halign _ hlt (by omega)]
    exact hcov i hi

/-- C6, witness: the spec's Anna scenario (booking 10:00-10:30, slot size
30 min, 60-minute request): the characterization applied at 10:00, and
the concrete exclusions of 09:30 and 10:00 plus the back-to-back
availability of 10:30. -/
theorem available_slots_characterization_witness :
    (600 ∈ get_available_slots_for_specialist [anna_booking] 540 1080 2 ↔
      ((∃ k, 600 = 540 + 30 * k) ∧ 600 + 30 * 2 ≤ 1080 ∧
       ∀ i < 2, ¬ ∃ b ∈ [anna_booking], b.appointment_time ≤ 600 + 30 * i ∧
         600 + 30 * i < b.appointment_time + b.duration_minutes)) ∧
    570 ∉ get_available_slots_for_specialist [anna_booking] 540 1080 2 ∧
    600 ∉ get_available_slots_for_specialist [anna_booking] 540 1080 2 ∧
    630 ∈ get_available_slots_for_specialist [anna_booking] 540 1080 2 :=
  ⟨available_slots_characterization [anna_booking] 540 1080 2 (by decide)
      (by decide) (by decide) (by decide) 600,
   by decide, by decide, by decide⟩

/-- C10, witness: the recalculation equivalence applied on a concrete
day. -/
theorem recalculate_slots_equiv_witness :
    recalculate_slots_for_duration
      (get_available_slots_for_specialist [anna_booking] 540 1080 1) 2 =
    get_available_slots_for_specialist [anna_booking] 540 1080 2 :=
  recalculate_slots_equiv [anna_booking] 540 1080 2 (by decide) (by decide)

/-- Parsed booking fields of a Claude response, as consumed by the three
`BookingService` handlers.  Modelled from the spec plus the handlers'
parsing prologues (`src/app/models.py` is not part of the sources): the
string fields `date_order`, `time_set_up`, `date_reject`, `time_reject`
are represented after `_parse_date`/`_parse_time`; `none` is a missing or
unparsable value, on which the handlers return a failure dictionary
without touching the store. -/
structure BookingFields where
  cosmetolog : String
  date_order : Option Nat
  time_set_up : Option Nat
  date_reject : Option Nat
  time_reject : Option Nat
  procedure : String
  name : String
  phone : String
  deriving DecidableEq, Repr

/-- Outcome dictionary of a booking handler, reduced to what the claims
use: `success` plus the booking id on success. -/
inductive BookingOutcome where
  | failure
  | ok (booking_id : Nat)
  deriving DecidableEq, Repr

/-- Service duration lookup of `_activate_booking` lines 107-113:
default one slot, overridden when the procedure is a known service (an
empty procedure is falsy and keeps the default). -/
def service_duration (cfg : BProjectConfig) (procedure : String) : Nat :=
  if procedure == "" then 1
  else
    match cfg.services.find? (fun s => s.1 == procedure) with
    | some s => s.2
    | none => 1

/-- Python substring test `needle in hay` on character lists. -/
def str_contains (hay needle : String) : Bool :=
  (List.range (hay.data.length + 1)).any
    (fun i => needle.data.isPrefixOf (hay.data.drop i))

/-- First booking with the maximum `created_at`:
`sorted(..., key=created_at, reverse=True)[0]` with Python's stable
sort, written with the running candidate as accumulator. -/
def latest_booking_from (acc : Option Booking) :
    List Booking → Option Booking
  | [] => acc
  | b :: rest =>
    latest_booking_from
      (match acc with
       | none => some b
       | some cur =>
         if b.created_at > cur.created_at then some b else acc)
      rest

/-- First booking with the maximum `created_at`. -/
def latest_booking (l : List Booking) : Option Booking :=
  latest_booking_from none l

/-- The Booking row inserted by `_activate_booking` lines 138-152. -/
def activate_row (cfg : BProjectConfig) (st : BState) (r : BookingFields)
    (client_id : String) (booking_date booking_time : Nat) : Booking :=
  { id := st.next_id, project_id := cfg.project_id,
    specialist_name := r.cosmetolog,
    appointment_date := booking_date,
    appointment_time := booking_time, client_id := client_id,
    client_name := r.name, service_name := r.procedure,
    client_phone := r.phone,
    duration_minutes := service_duration cfg r.procedure * 30,
    status := BookingStatus.active, created_at := st.now,
    updated_at := st.now }

/-- Embeds `BookingService._activate_booking`
(`src/app/services/booking_service.py` lines 64-186) after the parsing
prologue.  `mirror_free` is the value of
`is_slot_available_in_sheets_async` (that wrapper catches its own
exceptions and returns False); `mirror_update` is the outcome of
`update_single_booking_slot_async`, which is only logged: exceptions are
swallowed by the `try/except` around it. -/
def activate_booking (cfg : BProjectConfig) (st : BState)
    (r : BookingFields) (client_id : String) (mirror_free : Bool)
    (_mirror_update : Except String Bool) : BState × BookingOutcome :=
  if r.cosmetolog == "" then (st, BookingOutcome.failure)
  else
    match r.date_order, r.time_set_up with
    | none, _ => (st, BookingOutcome.failure)
    | some _, none => (st, BookingOutcome.failure)
    | some booking_date, some booking_time =>
      if !(cfg.specialists.contains r.cosmetolog) then
        (st, BookingOutcome.failure)
      else
        let duration_slots := service_duration cfg r.procedure
        if !(is_slot_available cfg st r.cosmetolog booking_date
              booking_time duration_slots none) then
          (st, BookingOutcome.failure)
        else if !mirror_free then (st, BookingOutcome.failure)
        else
          ({ bookings := st.bookings ++
               [activate_row cfg st r client_id booking_date booking_time],
             next_id := st.next_id + 1,
             now := st.now + 1 }, BookingOutcome.ok st.next_id)

/-- Row update of `_reject_booking` line 227: cancel the found booking. -/
def cancel_mark (st : BState) (bid : Nat) (b : Booking) : Booking :=
  if b.id == bid then
    { b with status := BookingStatus.cancelled, updated_at := st.now }
  else b

/-- Embeds `BookingService._reject_booking`
(`src/app/services/booking_service.py` lines 188-259) after the parsing
prologue; the mirror clear is only logged. -/
def reject_booking (cfg : BProjectConfig) (st : BState)
    (r : BookingFields) (client_id : String)
    (_mirror_clear : Except String Bool) : BState × BookingOutcome :=
  if r.cosmetolog == "" then (st, BookingOutcome.failure)
  else
    match r.date_reject, r.time_reject with
    | some booking_date, some booking_time =>
      match st.bookings.find? (fun b =>
          b.project_id == cfg.project_id && b.client_id == client_id &&
          b.specialist_name == r.cosmetolog &&
          b.appointment_date == booking_date &&
          b.appointment_time == booking_time &&
          b.status == BookingStatus.active) with
      | none => (st, BookingOutcome.failure)
      | some booking =>
        ({ st with bookings := st.bookings.map (cancel_mark st booking.id),
                   now := st.now + 1 }, BookingOutcome.ok booking.id)
    | _, _ => (st, BookingOutcome.failure)

/-- Row update of `_change_booking` lines 350-358: move the selected
booking in place to the new specialist, date, time and duration. -/
def change_mark (st : BState) (old_id : Nat) (specialist : String)
    (new_date new_time : Nat) (name service phone : String)
    (dur_min : Nat) (b : Booking) : Booking :=
  if b.id == old_id then
    { b with specialist_name := specialist, appointment_date := new_date,
             appointment_time := new_time,
             client_name := if name != "" then name else b.client_name,
             service_name :=
               if service != "" then service else b.service_name,
             client_phone := if phone != "" then phone else b.client_phone,
             duration_minutes := dur_min, updated_at := st.now }
  else b

/-- Old-booking selection of `_change_booking` lines 279-306: by service
substring match, then by rejected date/time, then the most recent active
booking. -/
def select_old_booking (r : BookingFields) (old_bookings : List Booking) :
    Option Booking :=
  let by_service :=
    if r.procedure != "" then
      latest_booking (old_bookings.filter (fun b =>
        str_contains (b.service_name.toLower) (r.procedure.toLower)))
    else none
  match by_service with
  | some b => some b
  | none =>
    let by_datetime :=
      match r.date_reject, r.time_reject with
      | some d, some t =>
        (old_bookings.filter (fun b =>
          b.appointment_date == d && b.appointment_time == t)).head?
      | _, _ => none
    match by_datetime with
    | some b => some b
    | none => latest_booking old_bookings

/-- Embeds `BookingService._change_booking`
(`src/app/services/booking_service.py` lines 261-389) after the parsing
prologue; the mirror clear/set pair is only logged. -/
def change_booking (cfg : BProjectConfig) (st : BState)
    (r : BookingFields) (client_id : String)
    (_mirror_clear _mirror_set : Except String Bool) :
    BState × BookingOutcome :=
  let old_bookings := st.bookings.filter (fun b =>
    b.project_id == cfg.project_id && b.client_id == client_id &&
    b.status == BookingStatus.active)
  if old_bookings.isEmpty then (st, BookingOutcome.failure)
  else
    match select_old_booking r old_bookings with
    | none => (st, BookingOutcome.failure)
    | some old_booking =>
      if r.cosmetolog == "" then (st, BookingOutcome.failure)
      else
        match r.date_order, r.time_set_up with
        | none, _ => (st, BookingOutcome.failure)
        | some _, none => (st, BookingOutcome.failure)
        | some new_date, some new_time =>
          if !(cfg.specialists.contains r.cosmetolog) then
            (st, BookingOutcome.failure)
          else
            let duration_slots := service_duration cfg r.procedure
            if !(is_slot_available cfg st r.cosmetolog new_date new_time
                  duration_slots (some old_booking.id)) then
              (st, BookingOutcome.failure)
            else
              ({ st with
                   bookings := st.bookings.map
                       (change_mark st old_booking.id r.cosmetolog new_date
                         new_time r.name r.procedure r.phone
                         (duration_slots * 30)),
                   now := st.now + 1 }, BookingOutcome.ok old_booking.id)

/-- Non-overlap of two bookings' time ranges. -/
def ranges_disjoint (b1 b2 : Booking) : Prop :=
  b1.appointment_time + b1.duration_minutes ≤ b2.appointment_time ∨
  b2.appointment_time + b2.duration_minutes ≤ b1.appointment_time

/-- The no-double-booking invariant: active bookings of one
(project_id, specialist, date) have pairwise disjoint ranges. -/
def NoOverlap (st : BState) : Prop :=
  ∀ b1 ∈ st.bookings, ∀ b2 ∈ st.bookings, b1.id ≠ b2.id →
    b1.status = BookingStatus.active → b2.status = BookingStatus.active →
    b1.project_id = b2.project_id →
    b1.specialist_name = b2.specialist_name →
    b1.appointment_date = b2.appointment_date →
    ranges_disjoint b1 b2

/-- Shape of every row the allocator writes: half-hour aligned, at least
one slot, not crossing midnight. -/
def booking_shape (b : Booking) : Prop :=
  aligned_booking b ∧ 30 ≤ b.duration_minutes

/-- Well-formedness of the booking store: positive distinct ids below the
id supply. -/
def BWF (st : BState) : Prop :=
  1 ≤ st.next_id ∧
  (∀ b ∈ st.bookings, b.id < st.next_id ∧ 1 ≤ b.id) ∧
  st.bookings.Pairwise (fun a b => a.id ≠ b.id)

instance (st : BState) : Decidable (NoOverlap st) := by
  unfold NoOverlap ranges_disjoint
  infer_instance

instance (st : BState) : Decidable (BWF st) := by
  unfold BWF
  infer_instance

/-- A passed `_is_slot_available` check makes the requested aligned range
disjoint from every non-excluded active aligned booking of the same
(project, specialist, date). -/
theorem is_slot_available_disjoint (cfg : BProjectConfig) (st : BState)
    (spec : String) (date t d : Nat) (excl : Option Nat)
    (havail : is_slot_available cfg st spec date t d excl = true)
    (ht30 : t % 30 = 0) (hd : 1 ≤ d)
    (b : Booking) (hb : b ∈ st.bookings)
    (hbp : b.project_id = cfg.project_id) (hbs : b.specialist_name = spec)
    (hbd : b.appointment_date = date)
    (hba : b.status = BookingStatus.active)
    (hshape : booking_shape b)
    (hexcl : ∀ e, excl = some e → e ≠ 0 → b.id ≠ e) :
    t + 30 * d ≤ b.appointment_time ∨
    b.appointment_time + b.duration_minutes ≤ t := by
  by_contra hcon
  push_neg at hcon
  rcases hcon with ⟨h1, h2⟩
  rcases hshape with ⟨⟨ha1, ha2, ha3⟩, ha4⟩
  unfold is_slot_available at havail
  rw [List.all_eq_true] at havail
  have hball := havail b (by
    rw [List.mem_filter]
    refine ⟨hb, ?_⟩
    rcases excl with _ | e
    · simp [hbp, hbs, hbd, hba]
    · by_cases he : e = 0
      · subst he
        simp [hbp, hbs, hbd, hba]
      · have hne := hexcl e rfl he
        simp [hbp, hbs, hbd, hba, he, hne])
  rw [List.all_eq_true] at hball
  have hm30 : (max t b.appointment_time) % 30 = 0 := by
    rcases Nat.le_total t b.appointment_time with h | h
    · rw [Nat.max_eq_right h]
      exact ha1
    · rw [Nat.max_eq_left h]
      exact ht30
  have hmlt1 : max t b.appointment_time < t + 30 * d := by
    rcases Nat.le_total t b.appointment_time with h | h
    · rw [Nat.max_eq_right h]
      omega
    · rw [Nat.max_eq_left h]
      omega
  have hmlt2 : max t b.appointment_time <
      b.appointment_time + b.duration_minutes := by
    rcases Nat.le_total t b.appointment_time with h | h
    · rw [Nat.max_eq_right h]
      omega
    · rw [Nat.max_eq_left h]
      omega
  have hmge1 : t ≤ max t b.appointment_time := Nat.le_max_left _ _
  have hmge2 : b.appointment_time ≤ max t b.appointment_time :=
    Nat.le_max_right _ _
  have hmlt1440 : max t b.appointment_time < 1440 := by omega
  have hdmj := Nat.div_add_mod (max t b.appointment_time -
    b.appointment_time) 30
  have hdmi := Nat.div_add_mod (max t b.appointment_time - t) 30
  have hdmd := Nat.div_add_mod b.duration_minutes 30
  have hjmod : (max t b.appointment_time - b.appointment_time) % 30 = 0 :=
    by omega
  have himod : (max t b.appointment_time - t) % 30 = 0 := by omega
  have hj := hball ((max t b.appointment_time - b.appointment_time) / 30)
    (List.mem_range.mpr (by omega))
  have hmem : ((b.appointment_time +
      30 * ((max t b.appointment_time - b.appointment_time) / 30)) %
        1440) ∈ occupied_slot_times t d := by
    unfold occupied_slot_times
    refine List.mem_map.mpr ⟨(max t b.appointment_time - t) / 30,
      List.mem_range.mpr (by omega), ?_⟩
    have e1 : b.appointment_time +
        30 * ((max t b.appointment_time - b.appointment_time) / 30) =
        max t b.appointment_time := by omega
    have e2 : t + 30 * ((max t b.appointment_time - t) / 30) =
        max t b.appointment_time := by omega
    rw [e1, e2]
  rw [Bool.not_eq_eq_eq_not, Bool.not_true] at hj
  have hc := List.elem_iff.mpr hmem
  have hcontra : (true : Bool) = false := by
    rw [← hc]
    exact hj
  cases hcontra

theorem latest_booking_from_mem :
    ∀ (l : List Booking) (acc : Option Booking) (x : Booking),
      latest_booking_from acc l = some x → acc = some x ∨ x ∈ l := by
  intro l
  induction l with
  | nil => intro acc x h; exact Or.inl h
  | cons b rest ih =>
    intro acc x h
    rcases acc with _ | cur
    · have h2 : latest_booking_from (some b) rest = some x := h
      rcases ih _ x h2 with h3 | h3
      · cases h3
        exact Or.inr (List.mem_cons_self _ _)
      · exact Or.inr (List.mem_cons_of_mem _ h3)
    · have h2 : latest_booking_from
          (if b.created_at > cur.created_at then some b else some cur)
          rest = some x := h
      by_cases hgt : b.created_at > cur.created_at
      · rw [if_pos hgt] at h2
        rcases ih _ x h2 with h3 | h3
        · cases h3
          exact Or.inr (List.mem_cons_self _ _)
        · exact Or.inr (List.mem_cons_of_mem _ h3)
      · rw [if_neg hgt] at h2
        rcases ih _ x h2 with h3 | h3
        · exact Or.inl h3
        · exact Or.inr (List.mem_cons_of_mem _ h3)

theorem latest_booking_mem {l : List Booking} {x : Booking}
    (h : latest_booking l = some x) : x ∈ l := by
  rcases latest_booking_from_mem l none x h with h2 | h2
  · cases h2
  · exact h2

theorem select_old_booking_mem {r : BookingFields} {l : List Booking}
    {b : Booking} (h : select_old_booking r l = some b) : b ∈ l := by
  unfold select_old_booking at h
  dsimp only at h
  split at h
  · rename_i heq
    cases h
    split at heq
    · exact List.mem_of_mem_filter (latest_booking_mem heq)
    · cases heq
  · split at h
    · rename_i heq
      cases h
      split at heq
      · exact List.mem_of_mem_filter (List.mem_of_mem_head? heq)
      · cases heq
    · exact latest_booking_mem h

theorem cancel_mark_key (st : BState) (bid : Nat) (b : Booking) :
    (cancel_mark st bid b).id = b.id ∧
    (cancel_mark st bid b).project_id = b.project_id ∧
    (cancel_mark st bid b).specialist_name = b.specialist_name ∧
    (cancel_mark st bid b).appointment_date = b.appointment_date ∧
    (cancel_mark st bid b).appointment_time = b.appointment_time ∧
    (cancel_mark st bid b).duration_minutes = b.duration_minutes := by
  refine ⟨?_, ?_, ?_, ?_, ?_, ?_⟩ <;>
    · unfold cancel_mark
      split <;> rfl

theorem cancel_mark_active (st : BState) (bid : Nat) (b : Booking)
    (h : (cancel_mark st bid b).status = BookingStatus.active) :
    b.status = BookingStatus.active := by
  unfold cancel_mark at h
  split at h
  · cases h
  · exact h

theorem change_mark_ne (st : BState) (old_id : Nat) (spec : String)
    (nd nt : Nat) (nm sv ph : String) (dm : Nat) (b : Booking)
    (h : (b.id == old_id) = false) :
    change_mark st old_id spec nd nt nm sv ph dm b = b := by
  unfold change_mark
  rw [h]
  rfl

theorem change_mark_eq (st : BState) (old_id : Nat) (spec : String)
    (nd nt : Nat) (nm sv ph : String) (dm : Nat) (b : Booking)
    (h : (b.id == old_id) = true) :
    (change_mark st old_id spec nd nt nm sv ph dm b).id = b.id ∧
    (change_mark st old_id spec nd nt nm sv ph dm b).project_id =
      b.project_id ∧
    (change_mark st old_id spec nd nt nm sv ph dm b).status = b.status ∧
    (change_mark st old_id spec nd nt nm sv ph dm b).specialist_name =
      spec ∧
    (change_mark st old_id spec nd nt nm sv ph dm b).appointment_date =
      nd ∧
    (change_mark st old_id spec nd nt nm sv ph dm b).appointment_time =
      nt ∧
    (change_mark st old_id spec nd nt nm sv ph dm b).duration_minutes =
      dm := by
  unfold change_mark
  rw [h]
  exact ⟨rfl, rfl, rfl, rfl, rfl, rfl, rfl⟩

theorem service_duration_pos (cfg : BProjectConfig)
    (hcfg : ∀ s ∈ cfg.services, 1 ≤ s.2) (procedure : String) :
    1 ≤ service_duration cfg procedure := by
  unfold service_duration
  split
  · omega
  · split
    · rename_i s hfind
      exact hcfg s (List.mem_of_find?_eq_some hfind)
    · omega

theorem change_mark_id (st : BState) (old_id : Nat) (spec : String)
    (nd nt : Nat) (nm sv ph : String) (dm : Nat) (b : Booking) :
    (change_mark st old_id spec nd nt nm sv ph dm b).id = b.id := by
  unfold change_mark
  split <;> rfl

/-- Under pairwise-distinct ids, bookings are determined by their id. -/
theorem bwf_id_inj {st : BState}
    (hp : st.bookings.Pairwise (fun a b => a.id ≠ b.id)) {a b : Booking}
    (ha : a ∈ st.bookings) (hb : b ∈ st.bookings) (hid : a.id = b.id) :
    a = b := by
  rcases mem_rel_of_pairwise hp ha hb with h | h | h
  · exact h
  · exact absurd hid h
  · exact absurd hid.symm h

/-- Every stored row is allocator-shaped. -/
def BShapes (st : BState) : Prop :=
  ∀ b ∈ st.bookings, booking_shape b

instance (b : Booking) : Decidable (booking_shape b) := by
  unfold booking_shape
  infer_instance

instance (st : BState) : Decidable (BShapes st) := by
  unfold BShapes
  infer_instance

/-- The booking-store invariant: well-formed ids, allocator-shaped rows,
and pairwise-disjoint active ranges per (project, specialist, date). -/
def BInv (st : BState) : Prop :=
  BWF st ∧ BShapes st ∧ NoOverlap st

instance (st : BState) : Decidable (BInv st) := by
  unfold BInv
  infer_instance

/-- Branch analysis of `_activate_booking`: failure leaves the store
unchanged; success requires the parsed fields, the specialist and the
availability check, and appends the one new row. -/
theorem activate_booking_cases (cfg : BProjectConfig) (st : BState)
    (r : BookingFields) (c : String) (mf : Bool)
    (mu : Except String Bool) :
    activate_booking cfg st r c mf mu = (st, BookingOutcome.failure) ∨
    (∃ bd bt, r.date_order = some bd ∧ r.time_set_up = some bt ∧
      is_slot_available cfg st r.cosmetolog bd bt
        (service_duration cfg r.procedure) none = true ∧
      mf = true ∧
      activate_booking cfg st r c mf mu =
        ({ bookings := st.bookings ++ [activate_row cfg st r c bd bt],
           next_id := st.next_id + 1, now := st.now + 1 },
         BookingOutcome.ok st.next_id)) := by
  unfold activate_booking
  split
  · exact Or.inl rfl
  · split
    · exact Or.inl rfl
    · exact Or.inl rfl
    · rename_i bd bt hbd hbt
      split
      · exact Or.inl rfl
      · dsimp only
        split
        · exact Or.inl rfl
        · rename_i hav
          split
          · exact Or.inl rfl
          · rename_i hmf
            refine Or.inr ⟨bd, bt, hbd, hbt, ?_, ?_, rfl⟩
            · simpa using hav
            · simpa using hmf

/-- Branch analysis of `_reject_booking`: failure leaves the store
unchanged; success cancels the one found active booking in place. -/
theorem reject_booking_cases (cfg : BProjectConfig) (st : BState)
    (r : BookingFields) (c : String) (mc : Except String Bool) :
    reject_booking cfg st r c mc = (st, BookingOutcome.failure) ∨
    (∃ booking, booking ∈ st.bookings ∧
      booking.status = BookingStatus.active ∧
      reject_booking cfg st r c mc =
        ({ st with
             bookings := st.bookings.map (cancel_mark st booking.id),
             now := st.now + 1 }, BookingOutcome.ok booking.id)) := by
  unfold reject_booking
  split
  · exact Or.inl rfl
  · split
    · split
      · exact Or.inl rfl
      · rename_i booking heq
        have hmem := List.mem_of_find?_eq_some heq
        have hpred := List.find?_some heq
        simp only [Bool.and_eq_true, beq_iff_eq] at hpred
        exact Or.inr ⟨booking, hmem, hpred.2, rfl⟩
    · exact Or.inl rfl

/-- Branch analysis of `_change_booking`: failure leaves the store
unchanged; success moves the one selected active booking in place, after
an availability check that excludes that booking's id. -/
theorem change_booking_cases (cfg : BProjectConfig) (st : BState)
    (r : BookingFields) (c : String) (mc ms : Except String Bool) :
    change_booking cfg st r c mc ms = (st, BookingOutcome.failure) ∨
    (∃ old nd nt, old ∈ st.bookings ∧
      old.project_id = cfg.project_id ∧
      old.status = BookingStatus.active ∧
      r.time_set_up = some nt ∧
      is_slot_available cfg st r.cosmetolog nd nt
        (service_duration cfg r.procedure) (some old.id) = true ∧
      change_booking cfg st r c mc ms =
        ({ st with
             bookings := st.bookings.map
               (change_mark st old.id r.cosmetolog nd nt r.name
                 r.procedure r.phone
                 (service_duration cfg r.procedure * 30)),
             now := st.now + 1 }, BookingOutcome.ok old.id)) := by
  unfold change_booking
  dsimp only
  split
  · exact Or.inl rfl
  · split
    · exact Or.inl rfl
    · rename_i old hsel
      have hmemf := select_old_booking_mem hsel
      rw [List.mem_filter] at hmemf
      have hpred := hmemf.2
      simp only [Bool.and_eq_true, beq_iff_eq] at hpred
      split
      · exact Or.inl rfl
      · split
        · exact Or.inl rfl
        · exact Or.inl rfl
        · rename_i nd nt hnd hnt
          split
          · exact Or.inl rfl
          · split
            · exact Or.inl rfl
            · rename_i hav
              refine Or.inr ⟨old, nd, nt, hmemf.1, hpred.1.1, hpred.2,
                hnt, ?_, rfl⟩
              simpa using hav

/-- `_activate_booking` preserves the booking-store invariant when its
requested times are on the half-hour grid and runs stay inside the day. -/
theorem activate_preserves (cfg : BProjectConfig) (st : BState)
    (r : BookingFields) (c : String) (mf : Bool) (mu : Except String Bool)
    (hcfg : ∀ s ∈ cfg.services, 1 ≤ s.2)
    (halign : ∀ t, r.time_set_up = some t →
      t % 30 = 0 ∧ t + 30 * service_duration cfg r.procedure ≤ 1440)
    (hinv : BInv st) :
    BInv (activate_booking cfg st r c mf mu).1 := by
  rcases activate_booking_cases cfg st r c mf mu with h |
    ⟨bd, bt, hbd, hbt, hav, hmf, h⟩
  · rw [h]
    exact hinv
  · rw [h]
    obtain ⟨ht30, hle⟩ := halign bt hbt
    obtain ⟨⟨hn1, hids, hpw⟩, hsh, hno⟩ := hinv
    have hd1 : 1 ≤ service_duration cfg r.procedure :=
      service_duration_pos cfg hcfg r.procedure
    unfold BInv BWF BShapes NoOverlap
    dsimp only
    refine ⟨⟨by omega, ?_, ?_⟩, ?_, ?_⟩
    · intro b hb
      rcases List.mem_append.mp hb with hb | hb
      · have := hids b hb
        omega
      · have hb2 := List.mem_singleton.mp hb
        subst hb2
        show st.next_id < st.next_id + 1 ∧ 1 ≤ st.next_id
        omega
    · rw [List.pairwise_append]
      refine ⟨hpw, List.pairwise_singleton _ _, ?_⟩
      intro a ha b hb
      have hb2 := List.mem_singleton.mp hb
      subst hb2
      have h1 := (hids a ha).1
      show a.id ≠ st.next_id
      omega
    · intro b hb
      rcases List.mem_append.mp hb with hb | hb
      · exact hsh b hb
      · have hb2 := List.mem_singleton.mp hb
        subst hb2
        show ((bt % 30 = 0 ∧ service_duration cfg r.procedure * 30 % 30 = 0 ∧
          bt + service_duration cfg r.procedure * 30 ≤ 1440) ∧
          30 ≤ service_duration cfg r.procedure * 30)
        omega
    · intro b1 hb1 b2 hb2 hid h1a h2a hp hs hdt
      rcases List.mem_append.mp hb1 with hb1 | hb1 <;>
        rcases List.mem_append.mp hb2 with hb2 | hb2
      · exact hno b1 hb1 b2 hb2 hid h1a h2a hp hs hdt
      · have he2 := List.mem_singleton.mp hb2
        subst he2
        have hbp : b1.project_id = cfg.project_id := hp
        have hbs : b1.specialist_name = r.cosmetolog := hs
        have hbd2 : b1.appointment_date = bd := hdt
        have hdisj := is_slot_available_disjoint cfg st r.cosmetolog bd bt
          (service_duration cfg r.procedure) none hav ht30 hd1 b1 hb1 hbp
          hbs hbd2 h1a (hsh b1 hb1) (fun e he _ => by cases he)
        show b1.appointment_time + b1.duration_minutes ≤ bt ∨
          bt + service_duration cfg r.procedure * 30 ≤ b1.appointment_time
        omega
      · have he1 := List.mem_singleton.mp hb1
        subst he1
        have hbp : b2.project_id = cfg.project_id := hp.symm
        have hbs : b2.specialist_name = r.cosmetolog := hs.symm
        have hbd2 : b2.appointment_date = bd := hdt.symm
        have hdisj := is_slot_available_disjoint cfg st r.cosmetolog bd bt
          (service_duration cfg r.procedure) none hav ht30 hd1 b2 hb2 hbp
          hbs hbd2 h2a (hsh b2 hb2) (fun e he _ => by cases he)
        show bt + service_duration cfg r.procedure * 30 ≤
            b2.appointment_time ∨
          b2.appointment_time + b2.duration_minutes ≤ bt
        omega
      · have he1 := List.mem_singleton.mp hb1
        have he2 := List.mem_singleton.mp hb2
        rw [he1, he2] at hid
        exact absurd rfl hid

/-- `_reject_booking` preserves the booking-store invariant. -/
theorem reject_preserves (cfg : BProjectConfig) (st : BState)
    (r : BookingFields) (c : String) (mc : Except String Bool)
    (hinv : BInv st) :
    BInv (reject_booking cfg st r c mc).1 := by
  rcases reject_booking_cases cfg st r c mc with h | ⟨bk, _, _, h⟩
  · rw [h]
    exact hinv
  · rw [h]
    obtain ⟨⟨hn1, hids, hpw⟩, hsh, hno⟩ := hinv
    unfold BInv BWF BShapes NoOverlap
    dsimp only
    refine ⟨⟨hn1, ?_, ?_⟩, ?_, ?_⟩
    · intro b hb
      rcases List.mem_map.mp hb with ⟨a, ha, rfl⟩
      rw [(cancel_mark_key st bk.id a).1]
      exact hids a ha
    · rw [List.pairwise_map]
      refine hpw.imp ?_
      intro a b hab
      rw [(cancel_mark_key st bk.id a).1, (cancel_mark_key st bk.id b).1]
      exact hab
    · intro b hb
      rcases List.mem_map.mp hb with ⟨a, ha, rfl⟩
      have hsa := hsh a ha
      obtain key := cancel_mark_key st bk.id a
      unfold booking_shape aligned_booking at hsa ⊢
      rw [key.2.2.2.2.1, key.2.2.2.2.2]
      exact hsa
    · intro b1 hb1 b2 hb2 hid h1a h2a hp hs hdt
      rcases List.mem_map.mp hb1 with ⟨a1, ha1, rfl⟩
      rcases List.mem_map.mp hb2 with ⟨a2, ha2, rfl⟩
      obtain k1 := cancel_mark_key st bk.id a1
      obtain k2 := cancel_mark_key st bk.id a2
      rw [k1.1, k2.1] at hid
      rw [k1.2.1, k2.2.1] at hp
      rw [k1.2.2.1, k2.2.2.1] at hs
      rw [k1.2.2.2.1, k2.2.2.2.1] at hdt
      have hdj := hno a1 ha1 a2 ha2 hid
        (cancel_mark_active _ _ _ h1a) (cancel_mark_active _ _ _ h2a)
        hp hs hdt
      unfold ranges_disjoint at hdj ⊢
      rw [k1.2.2.2.2.1, k1.2.2.2.2.2, k2.2.2.2.2.1, k2.2.2.2.2.2]
      exact hdj

/-- `_change_booking` preserves the booking-store invariant when its
requested times are on the half-hour grid and runs stay inside the day. -/
theorem change_preserves (cfg : BProjectConfig) (st : BState)
    (r : BookingFields) (c : String) (mc ms : Except String Bool)
    (hcfg : ∀ s ∈ cfg.services, 1 ≤ s.2)
    (halign : ∀ t, r.time_set_up = some t →
      t % 30 = 0 ∧ t + 30 * service_duration cfg r.procedure ≤ 1440)
    (hinv : BInv st) :
    BInv (change_booking cfg st r c mc ms).1 := by
  rcases change_booking_cases cfg st r c mc ms with h |
    ⟨old, nd, nt, hold, holdp, _, hnt, hav, h⟩
  · rw [h]
    exact hinv
  · rw [h]
    obtain ⟨ht30, hle⟩ := halign nt hnt
    obtain ⟨⟨hn1, hids, hpw⟩, hsh, hno⟩ := hinv
    have hd1 : 1 ≤ service_duration cfg r.procedure :=
      service_duration_pos cfg hcfg r.procedure
    unfold BInv BWF BShapes NoOverlap
    dsimp only
    refine ⟨⟨hn1, ?_, ?_⟩, ?_, ?_⟩
    · intro b hb
      rcases List.mem_map.mp hb with ⟨a, ha, rfl⟩
      rw [change_mark_id]
      exact hids a ha
    · rw [List.pairwise_map]
      refine hpw.imp ?_
      intro a b hab
      rw [change_mark_id, change_mark_id]
      exact hab
    · intro b hb
      rcases List.mem_map.mp hb with ⟨a, ha, rfl⟩
      rcases Bool.eq_false_or_eq_true (a.id == old.id) with ha2 | ha2
      · obtain ce := change_mark_eq st old.id r.cosmetolog nd nt r.name
          r.procedure r.phone (service_duration cfg r.procedure * 30) a ha2
        unfold booking_shape aligned_booking
        rw [ce.2.2.2.2.2.1, ce.2.2.2.2.2.2]
        omega
      · rw [change_mark_ne st old.id r.cosmetolog nd nt r.name r.procedure
          r.phone (service_duration cfg r.procedure * 30) a ha2]
        exact hsh a ha
    · intro b1 hb1 b2 hb2 hid h1a h2a hp hs hdt
      rcases List.mem_map.mp hb1 with ⟨a1, ha1, rfl⟩
      rcases List.mem_map.mp hb2 with ⟨a2, ha2, rfl⟩
      rw [change_mark_id, change_mark_id] at hid
      rcases Bool.eq_false_or_eq_true (a1.id == old.id) with h1 | h1 <;>
        rcases Bool.eq_false_or_eq_true (a2.id == old.id) with h2 | h2
      · exact absurd ((beq_iff_eq.mp h1).trans
          (beq_iff_eq.mp h2).symm) hid
      · obtain ce := change_mark_eq st old.id r.cosmetolog nd nt r.name
          r.procedure r.phone (service_duration cfg r.procedure * 30) a1 h1
        have hne2 := change_mark_ne st old.id r.cosmetolog nd nt r.name
          r.procedure r.phone (service_duration cfg r.procedure * 30) a2 h2
        rw [hne2] at h2a hp hs hdt ⊢
        rw [ce.2.1] at hp
        rw [ce.2.2.2.1] at hs
        rw [ce.2.2.2.2.1] at hdt
        have he1 : a1 = old := bwf_id_inj hpw ha1 hold (beq_iff_eq.mp h1)
        subst he1
        have hbp : a2.project_id = cfg.project_id := by
          rw [← hp, holdp]
        have hdisj := is_slot_available_disjoint cfg st r.cosmetolog nd nt
          (service_duration cfg r.procedure) (some a1.id) hav ht30 hd1 a2
          ha2 hbp hs.symm hdt.symm h2a (hsh a2 ha2)
          (fun e he _ => by
            injection he with he2
            rw [← he2]
            exact beq_eq_false_iff_ne.mp h2)
        unfold ranges_disjoint
        rw [ce.2.2.2.2.2.1, ce.2.2.2.2.2.2]
        omega
      · obtain ce := change_mark_eq st old.id r.cosmetolog nd nt r.name
          r.procedure r.phone (service_duration cfg r.procedure * 30) a2 h2
        have hne1 := change_mark_ne st old.id r.cosmetolog nd nt r.name
          r.procedure r.phone (service_duration cfg r.procedure * 30) a1 h1
        rw [hne1] at h1a hp hs hdt ⊢
        rw [ce.2.1] at hp
        rw [ce.2.2.2.1] at hs
        rw [ce.2.2.2.2.1] at hdt
        have he2 : a2 = old := bwf_id_inj hpw ha2 hold (beq_iff_eq.mp h2)
        subst he2
        have hbp : a1.project_id = cfg.project_id := by
          rw [hp, holdp]
        have hdisj := is_slot_available_disjoint cfg st r.cosmetolog nd nt
          (service_duration cfg r.procedure) (some a2.id) hav ht30 hd1 a1
          ha1 hbp hs hdt h1a (hsh a1 ha1)
          (fun e he _ => by
            injection he with he2
            rw [← he2]
            exact beq_eq_false_iff_ne.mp h1)
        unfold ranges_disjoint
        rw [ce.2.2.2.2.2.1, ce.2.2.2.2.2.2]
        omega
      · have hne1 := change_mark_ne st old.id r.cosmetolog nd nt r.name
          r.procedure r.phone (service_duration cfg r.procedure * 30) a1 h1
        have hne2 := change_mark_ne st old.id r.cosmetolog nd nt r.name
          r.procedure r.phone (service_duration cfg r.procedure * 30) a2 h2
        rw [hne1] at h1a hp hs hdt ⊢
        rw [hne2] at h2a hp hs hdt ⊢
        exact hno a1 ha1 a2 ha2 hid h1a h2a hp hs hdt

/-- One external booking call (`src/main.py` routes `date_order` to
activate, `date_reject` to reject, both to change), with its
non-deterministic mirror inputs. -/
inductive BookingOp where
  | allocate (r : BookingFields) (client_id : String) (mirror_free : Bool)
      (mirror_update : Except String Bool)
  | cancel (r : BookingFields) (client_id : String)
      (mirror_clear : Except String Bool)
  | change (r : BookingFields) (client_id : String)
      (mirror_clear mirror_set : Except String Bool)

/-- State effect of one booking call. -/
def apply_booking_op (cfg : BProjectConfig) (st : BState) :
    BookingOp → BState
  | BookingOp.allocate r c mf mu => (activate_booking cfg st r c mf mu).1
  | BookingOp.cancel r c mc => (reject_booking cfg st r c mc).1
  | BookingOp.change r c mc ms => (change_booking cfg st r c mc ms).1

/-- Sequential execution of booking calls. -/
def run_booking_ops (cfg : BProjectConfig) (st : BState) :
    List BookingOp → BState
  | [] => st
  | op :: rest => run_booking_ops cfg (apply_booking_op cfg st op) rest

/-- The alignment precondition of the corrected claim: requested start
times sit on the half-hour grid and the requested run does not cross
midnight. -/
def op_grid_aligned (cfg : BProjectConfig) : BookingOp → Prop
  | BookingOp.allocate r _ _ _ =>
      ∀ t, r.time_set_up = some t →
        t % 30 = 0 ∧ t + 30 * service_duration cfg r.procedure ≤ 1440
  | BookingOp.cancel _ _ _ => True
  | BookingOp.change r _ _ _ =>
      ∀ t, r.time_set_up = some t →
        t % 30 = 0 ∧ t + 30 * service_duration cfg r.procedure ≤ 1440

theorem binv_step (cfg : BProjectConfig) (st : BState) (op : BookingOp)
    (hcfg : ∀ s ∈ cfg.services, 1 ≤ s.2)
    (hal : op_grid_aligned cfg op) (hinv : BInv st) :
    BInv (apply_booking_op cfg st op) := by
  cases op with
  | allocate r c mf mu =>
    exact activate_preserves cfg st r c mf mu hcfg hal hinv
  | cancel r c mc => exact reject_preserves cfg st r c mc hinv
  | change r c mc ms =>
    exact change_preserves cfg st r c mc ms hcfg hal hinv

theorem binv_run (cfg : BProjectConfig) :
    ∀ (ops : List BookingOp) (st : BState),
      (∀ s ∈ cfg.services, 1 ≤ s.2) →
      (∀ op ∈ ops, op_grid_aligned cfg op) → BInv st →
      BInv (run_booking_ops cfg st ops) := by
  intro ops
  induction ops with
  | nil =>
    intro st _ _ hinv
    exact hinv
  | cons op rest ih =>
    intro st hcfg hops hinv
    exact ih (apply_booking_op cfg st op) hcfg
      (fun o ho => hops o (List.mem_cons_of_mem _ ho))
      (binv_step cfg st op hcfg (hops op (List.mem_cons_self _ _)) hinv)

/-- C2 (no double-booking), corrected.  For every sequence of Allocate,
Cancel and Change calls run sequentially from an invariant-satisfying
store, provided every service has at least one slot and every requested
start time lies on the half-hour grid with its run inside the day, after
every call the time ranges of the active bookings of any one
(project_id, specialist, date) are pairwise non-overlapping.  Without
the grid-alignment precondition the invariant fails, because
`_is_slot_available` compares slot start labels instead of intervals. -/
theorem no_double_booking (cfg : BProjectConfig) (st : BState)
    (ops : List BookingOp)
    (hcfg : ∀ s ∈ cfg.services, 1 ≤ s.2)
    (hops : ∀ op ∈ ops, op_grid_aligned cfg op)
    (hinv : BInv st) :
    ∀ n, NoOverlap (run_booking_ops cfg st (ops.take n)) := by
  intro n
  exact (binv_run cfg (ops.take n) st hcfg
    (fun op hop => hops op (List.take_subset n ops hop)) hinv).2.2

/-- Allocator configuration for the concrete booking scenarios. -/
def cfg0 : BProjectConfig :=
  { project_id := "p", specialists := ["Anna"], services := [],
    work_start := 540, work_end := 1080 }

/-- Empty booking store. -/
def bst0 : BState := { bookings := [], next_id := 1, now := 0 }

/-- Allocation request for Anna at 10:00 (600 minutes). -/
def r600 : BookingFields :=
  { cosmetolog := "Anna", date_order := some 20250101,
    time_set_up := some 600, date_reject := none, time_reject := none,
    procedure := "", name := "A", phone := "1" }

/-- Off-grid allocation request for Anna at 10:15 (615 minutes). -/
def r615 : BookingFields :=
  { r600 with time_set_up := some 615, name := "B" }

/-- Grid-aligned allocation request for Anna at 10:30 (630 minutes). -/
def r630 : BookingFields :=
  { r600 with time_set_up := some 630, name := "C" }

/-- The off-grid call sequence: allocate 10:00, then allocate 10:15. -/
def c2ops_bad : List BookingOp :=
  [BookingOp.allocate r600 "c1" true (Except.ok true),
   BookingOp.allocate r615 "c2" true (Except.ok true)]

/-- The aligned call sequence: allocate 10:00, then allocate 10:30. -/
def c2ops_good : List BookingOp :=
  [BookingOp.allocate r600 "c1" true (Except.ok true),
   BookingOp.allocate r630 "c2" true (Except.ok true)]

/-- C2, counterexample to the frozen wording: from an empty store, both
the 10:00 allocation and the off-grid 10:15 allocation succeed, and the
resulting active bookings 10:00-10:30 and 10:15-10:45 for the same
(project, Anna, date) overlap. -/
theorem no_double_booking_counterexample :
    (activate_booking cfg0 bst0 r600 "c1" true (Except.ok true)).2 =
      BookingOutcome.ok 1 ∧
    (activate_booking cfg0
        (activate_booking cfg0 bst0 r600 "c1" true (Except.ok true)).1
        r615 "c2" true (Except.ok true)).2 = BookingOutcome.ok 2 ∧
    ¬ NoOverlap (run_booking_ops cfg0 bst0 c2ops_bad) := by
  refine ⟨by decide, by decide, by decide⟩

/-- C2, witness: the aligned two-allocation sequence keeps the active
ranges pairwise disjoint after both calls. -/
theorem no_double_booking_witness :
    NoOverlap (run_booking_ops cfg0 bst0 (c2ops_good.take 2)) :=
  no_double_booking cfg0 bst0 c2ops_good
    (by decide)
    (fun op hop => by
      simp only [c2ops_good, List.mem_cons, List.not_mem_nil,
        or_false] at hop
      rcases hop with rfl | rfl
      · intro t ht
        have h6 : (600 : Nat) = t := by
          injection ht
        rw [← h6]
        exact ⟨by decide, by decide⟩
      · intro t ht
        have h6 : (630 : Nat) = t := by
          injection ht
        rw [← h6]
        exact ⟨by decide, by decide⟩)
    (by decide) 2

/-- Any slot the availability computation returns avoids every occupied
slot label of every booking in the list it was computed from. -/
theorem avail_excludes_occupied (l : List Booking) (b : Booking)
    (hb : b ∈ l) (ws we f : Nat) (hf : 1 ≤ f) (s : Nat)
    (hs : s ∈ get_available_slots_for_specialist l ws we f) :
    ¬ (s % 1440) ∈ occupied_slots_of [b] := by
  intro hmem
  unfold get_available_slots_for_specialist at hs
  rw [List.mem_filter] at hs
  have hfree := (run_is_free_iff (occupied_slots_of l) s f).mp hs.2 0
    (by omega)
  apply hfree
  have h0 : (s + 30 * 0) % 1440 = s % 1440 := by omega
  rw [h0]
  unfold occupied_slots_of at hmem ⊢
  rw [List.mem_flatMap] at hmem ⊢
  rcases hmem with ⟨b2, hb2, hx⟩
  have hbe : b2 = b := List.mem_singleton.mp hb2
  subst hbe
  exact ⟨b2, hb, hx⟩

/-- C8 (mirror non-blocking), theorem.  When an Allocate passes the local
checks and commits (returns a booking id), the result is independent of
the mirror-update outcome, and the committed row is present, active, and
its occupied slot labels are excluded from every later availability
computation over the new store for its specialist and date. -/
theorem mirror_nonblocking (cfg : BProjectConfig) (st : BState)
    (r : BookingFields) (c : String) (mu mu2 : Except String Bool)
    (bid : Nat)
    (hok : (activate_booking cfg st r c true mu).2 =
      BookingOutcome.ok bid) :
    activate_booking cfg st r c true mu2 =
      activate_booking cfg st r c true mu ∧
    ∃ b, b ∈ (activate_booking cfg st r c true mu).1.bookings ∧
      b.id = bid ∧ b.status = BookingStatus.active ∧
      ∀ ws we f, 1 ≤ f →
        ∀ s ∈ get_available_slots_for_specialist
            ((activate_booking cfg st r c true mu).1.bookings.filter
              (fun b2 => b2.specialist_name == b.specialist_name &&
                b2.appointment_date == b.appointment_date &&
                b2.status == BookingStatus.active)) ws we f,
          ¬ (s % 1440) ∈ occupied_slots_of [b] := by
  refine ⟨rfl, ?_⟩
  rcases activate_booking_cases cfg st r c true mu with h |
    ⟨bd, bt, hbd, hbt, hav, _, h⟩
  · rw [h] at hok
    cases hok
  · rw [h] at hok ⊢
    have hok2 : BookingOutcome.ok st.next_id = BookingOutcome.ok bid := hok
    have hbid : st.next_id = bid := by
      injection hok2
    refine ⟨activate_row cfg st r c bd bt, ?_, hbid, rfl, ?_⟩
    · show activate_row cfg st r c bd bt ∈
        st.bookings ++ [activate_row cfg st r c bd bt]
      exact List.mem_append_right _ (List.mem_singleton.mpr rfl)
    · intro ws we f hf s hs
      refine avail_excludes_occupied _ _ ?_ ws we f hf s hs
      rw [List.mem_filter]
      refine ⟨?_, by simp [activate_row]⟩
      show activate_row cfg st r c bd bt ∈
        st.bookings ++ [activate_row cfg st r c bd bt]
      exact List.mem_append_right _ (List.mem_singleton.mpr rfl)

/-- C8, witness: with the mirror update erroring, the 10:00 allocation
still commits the same active booking as with a successful update, and
the slot 10:00 is excluded from later availability reads. -/
theorem mirror_nonblocking_witness :
    (activate_booking cfg0 bst0 r600 "c1" true (Except.ok true)).2 =
      BookingOutcome.ok 1 ∧
    (activate_booking cfg0 bst0 r600 "c1" true
        (Except.error "sheets api down") =
      activate_booking cfg0 bst0 r600 "c1" true (Except.ok true) ∧
    ∃ b, b ∈ (activate_booking cfg0 bst0 r600 "c1" true
        (Except.ok true)).1.bookings ∧
      b.id = 1 ∧ b.status = BookingStatus.active ∧
      ∀ ws we f, 1 ≤ f →
        ∀ s ∈ get_available_slots_for_specialist
            ((activate_booking cfg0 bst0 r600 "c1" true
                (Except.ok true)).1.bookings.filter
              (fun b2 => b2.specialist_name == b.specialist_name &&
                b2.appointment_date == b.appointment_date &&
                b2.status == BookingStatus.active)) ws we f,
          ¬ (s % 1440) ∈ occupied_slots_of [b]) :=
  ⟨by decide,
   mirror_nonblocking cfg0 bst0 r600 "c1" (Except.ok true)
     (Except.error "sheets api down") 1 (by decide)⟩

/-- C9 (mirror conflict check), theorem.  When the local store shows the
requested slot free but the live mirror read reports it occupied
(`mirror_free = false`), Allocate fails and inserts no booking row: the
store is returned unchanged with a failure outcome. -/
theorem mirror_conflict_check (cfg : BProjectConfig) (st : BState)
    (r : BookingFields) (c : String) (mu : Except String Bool)
    (bd bt : Nat) (hbd : r.date_order = some bd)
    (hbt : r.time_set_up = some bt)
    (hlocal : is_slot_available cfg st r.cosmetolog bd bt
      (service_duration cfg r.procedure) none = true) :
    activate_booking cfg st r c false mu = (st, BookingOutcome.failure) := by
  rcases activate_booking_cases cfg st r c false mu with h |
    ⟨_, _, _, _, _, hmf, _⟩
  · exact h
  · cases hmf

/-- C9, witness: with an empty store (slot locally free) and the mirror
reporting the 10:00 slot occupied, the allocation fails and the store is
unchanged. -/
theorem mirror_conflict_check_witness :
    is_slot_available cfg0 bst0 r600.cosmetolog 20250101 600
      (service_duration cfg0 r600.procedure) none = true ∧
    activate_booking cfg0 bst0 r600 "c1" false (Except.ok true) =
      (bst0, BookingOutcome.failure) :=
  ⟨by decide,
   mirror_conflict_check cfg0 bst0 r600 "c1" (Except.ok true) 20250101 600
     rfl rfl (by decide)⟩
